import Mathlib

/-!
Verification development for the message-system core: the file storage
backend with TTL (src/message_system/storage/backends.py), the hybrid
composite, the routing engine (src/message_system/routing/router.py),
the conversation manager (src/message_system/conversation/manager.py)
and the interceptor pipeline
(src/message_system/interceptor/message_interceptor.py).

Modelling conventions:
* machine time (datetime.now) is a Nat parameter passed to each operation;
  isoformat serialization of an instant is injective, so stored timestamp
  strings are modelled by their instants;
* file contents are modelled by their parsed JSON shape (json.loads after
  json.dumps is the identity on JSON-safe data); an unreadable or
  corrupt file is a separate constructor;
* Python dictionaries are association lists with function-like update and
  erase (a dict never holds a duplicate key);
* fallible operations return Except; an explicit IOEnv records which file
  writes fail, modelling OS-level write errors.
-/

/-- Association-list lookup, first match (Python dict access). -/
def alookup {κ α : Type} [DecidableEq κ] : List (κ × α) → κ → Option α
  | [], _ => none
  | (k', v) :: xs, k => if k' = k then some v else alookup xs k

/-- Remove every binding of a key (Python dict.pop: a dict holds at most one). -/
def aerase {κ α : Type} [DecidableEq κ] (m : List (κ × α)) (k : κ) : List (κ × α) :=
  m.filter (fun p => decide (p.1 ≠ k))

/-- Overwrite a key's binding (Python dict assignment). -/
def aset {κ α : Type} [DecidableEq κ] (m : List (κ × α)) (k : κ) (v : α) : List (κ × α) :=
  (k, v) :: aerase m k

/-- Apply a sequence of dict assignments left to right. -/
def asetSeq {κ α : Type} [DecidableEq κ] (m : List (κ × α)) (ws : List (κ × α)) :
    List (κ × α) :=
  ws.foldl (fun acc p => aset acc p.1 p.2) m

/-- Does the pattern occur at the start of the string (both as char lists)? -/
def startsWithL : List Char → List Char → Bool
  | [], _ => true
  | _ :: _, [] => false
  | p :: ps, c :: cs => p == c && startsWithL ps cs

/-- Does the pattern occur anywhere in the string (substring test)? -/
def containsSubL (pat : List Char) : List Char → Bool
  | [] => startsWithL pat []
  | c :: cs => startsWithL pat (c :: cs) || containsSubL pat cs

/-- Fueled worker for replaceAllL; fuel at least the string length is enough,
since every step consumes at least one character of the string. -/
def replaceFuel (pat rep : List Char) : Nat → List Char → List Char
  | _, [] => []
  | 0, s => s
  | fuel + 1, c :: cs =>
    if pat ≠ [] && startsWithL pat (c :: cs) then
      rep ++ replaceFuel pat rep fuel (List.drop (pat.length - 1) cs)
    else
      c :: replaceFuel pat rep fuel cs

/-- Python str.replace: replace all non-overlapping occurrences, left to right.
(The patterns used by the code are never empty.) -/
def replaceAllL (pat rep s : List Char) : List Char :=
  replaceFuel pat rep s.length s

/-- pathlib.Path.stem: the file name minus its suffix. The suffix starts at
the last dot, and exists only when that dot sits strictly inside the name
(CPython: `0 < i < len(name) - 1`), so a dot-file like ".json" and a name
ending in a dot keep their full name. In the match below t reverses the
part before the last dot, so the dot's index is t.length and the
`0 < i < len - 1` guard is the condition on t.length. -/
def stemL (s : List Char) : List Char :=
  match s.reverse.dropWhile (fun c => c != '.') with
  | [] => s
  | _ :: t =>
    if 0 < t.length ∧ t.length < s.length - 1 then t.reverse else s

/-- Fueled worker for the glob matcher. -/
def globMatchFuel : Nat → List Char → List Char → Bool
  | 0, _, _ => false
  | fuel + 1, p, s =>
    match p, s with
    | [], [] => true
    | [], _ :: _ => false
    | '*' :: ps, [] => globMatchFuel fuel ps []
    | '*' :: ps, c :: cs =>
      globMatchFuel fuel ps (c :: cs) || globMatchFuel fuel ('*' :: ps) cs
    | '?' :: _, [] => false
    | '?' :: ps, _ :: cs => globMatchFuel fuel ps cs
    | p0 :: ps, [] => (p0 == p0) && false && ps.isEmpty
    | p0 :: ps, c :: cs => p0 == c && globMatchFuel fuel ps cs

/-- Glob-style file-name matching as used by pathlib.Path.glob: a star
matches any character sequence, a question mark one character, other
characters literally. (Character classes are not used by this codebase;
pathlib's refusal to match a leading-dot file with a wildcard is not
modelled — the only key whose file starts with a dot is the empty key,
which the C5 statements exclude.) -/
def globMatchL (p s : List Char) : Bool :=
  globMatchFuel (p.length + s.length + 1) p s

/-- The colon-to-underscore translation of LocalFileStorage._get_file_path
(a single-character str.replace is a character map). -/
def colonToUnder (c : Char) : Char := if c = ':' then '_' else c

/-- The underscore-to-colon back-translation used by list_keys. -/
def underToColon (c : Char) : Char := if c = '_' then ':' else c

/-- key.replace(":", "_") of the file backend. -/
def safeKeyL (k : String) : List Char := k.data.map colonToUnder

/-- File name for a scalar key: `<safe_key>.json`. -/
def filePathL (k : String) : List Char := safeKeyL k ++ ".json".data

/-- File name for a list key: `<safe_key>_list.json`. -/
def listFilePathL (k : String) : List Char := safeKeyL k ++ "_list.json".data

/-- Parsed shape of one stored JSON file of the file backend.
A scalar record is `{'value': v, 'created_at': ..., 'ttl': ...}`, a list
record is `{'values': vs, 'updated_at': ...}`; `corrupt` stands for a file
whose read or JSON parse raises. -/
inductive FileContent (V : Type) where
  | scalar (value : V) (created : Nat) (ttl : Option Nat)
  | list (values : List V) (updated : Nat)
  | corrupt
deriving DecidableEq

/-- State of one LocalFileStorage instance: the directory of JSON files
(keyed by file name) and the in-memory TTL registry (keyed by the original
key string, holding the absolute expiry instant). -/
structure FileStore (V : Type) where
  files : List (List Char × FileContent V)
  ttl : List (String × Nat)
deriving DecidableEq

/-- A fresh backend directory. -/
def emptyStore {V : Type} : FileStore V := ⟨[], []⟩

/-- LocalFileStorage._is_expired: a key is expired when the registry holds
an expiry instant strictly in the past (`datetime.now() > expiry`). -/
def isExpired {V : Type} (s : FileStore V) (now : Nat) (k : String) : Bool :=
  match alookup s.ttl k with
  | some e => decide (e < now)
  | none => false

/-- LocalFileStorage.delete: unlink both the scalar and the list file of the
key when present, pop the TTL registry entry; idempotent. -/
def deleteOp {V : Type} (s : FileStore V) (k : String) : FileStore V :=
  { files := s.files.filter
      (fun p => decide (p.1 ≠ filePathL k) && decide (p.1 ≠ listFilePathL k)),
    ttl := aerase s.ttl k }

/-- LocalFileStorage.get: check TTL first (an expired key is deleted and
reported absent); then read the scalar file and return its 'value' field.
A read or parse failure is caught, logged and reported as absent; a file
without a 'value' field (a list record) yields None. -/
def getOp {V : Type} (s : FileStore V) (now : Nat) (k : String) :
    Option V × FileStore V :=
  if isExpired s now k then (none, deleteOp s k)
  else
    match alookup s.files (filePathL k) with
    | some (FileContent.scalar v _ _) => (some v, s)
    | some (FileContent.list _ _) => (none, s)
    | some FileContent.corrupt => (none, s)
    | none => (none, s)

/-- State change of LocalFileStorage.set when the write succeeds: overwrite
the scalar file; register the expiry instant only when a non-zero ttl was
given (`if ttl:`); a set without ttl does not touch the registry. -/
def setCore {V : Type} (s : FileStore V) (now : Nat) (k : String) (v : V)
    (ttl : Option Nat) : FileStore V :=
  let s1 : FileStore V :=
    { s with files := aset s.files (filePathL k) (FileContent.scalar v now ttl) }
  match ttl with
  | some t => if t = 0 then s1 else { s1 with ttl := aset s1.ttl k (now + t) }
  | none => s1

/-- Which file writes fail at the OS level during a run. -/
structure IOEnv where
  failWrite : List Char → Bool

/-- A run in which no write fails. -/
def envOk : IOEnv := ⟨fun _ => false⟩

/-- LocalFileStorage.set: a write failure is logged and re-raised. -/
def setOp {V : Type} (env : IOEnv) (s : FileStore V) (now : Nat) (k : String)
    (v : V) (ttl : Option Nat) : Except Unit (FileStore V) :=
  if env.failWrite (filePathL k) then Except.error ()
  else Except.ok (setCore s now k v ttl)

/-- LocalFileStorage.exists: same TTL semantics as get; otherwise true when
either the scalar or the list file is present. -/
def existsOp {V : Type} (s : FileStore V) (now : Nat) (k : String) :
    Bool × FileStore V :=
  if isExpired s now k then (false, deleteOp s k)
  else
    ((alookup s.files (filePathL k)).isSome
      || (alookup s.files (listFilePathL k)).isSome, s)

/-- list_keys' reconstruction of a key from a file name:
`file_path.stem.replace("_list", "").replace("_", ":")`. -/
def keyOfFile (f : List Char) : String :=
  ⟨(replaceAllL "_list".data [] (stemL f)).map underToColon⟩

/-- LocalFileStorage.list_keys: translate the pattern (colon to underscore),
glob for `<pattern>.json` and `<pattern>_list.json`, map the matched file
names back to keys and drop the keys whose reconstructed name is expired.
The file enumeration order is the (unspecified) directory order. -/
def listKeysOp {V : Type} (s : FileStore V) (now : Nat) (pattern : String) :
    List String :=
  let gp := pattern.data.map colonToUnder
  let m1 := s.files.filter (fun p => globMatchL (gp ++ ".json".data) p.1)
  let m2 := s.files.filter (fun p => globMatchL (gp ++ "_list.json".data) p.1)
  ((m1 ++ m2).map (fun p => keyOfFile p.1)).filter
    (fun key => !(isExpired s now key))

/-- State change of LocalFileStorage.append_to_list when the write succeeds:
read the existing list (a read or parse failure is caught and the list is
treated as empty; a scalar record at the list file name has no 'values'
field and also yields the empty list), append, write back. -/
def appendCore {V : Type} (s : FileStore V) (now : Nat) (k : String) (v : V) :
    FileStore V :=
  let existing : List V :=
    match alookup s.files (listFilePathL k) with
    | some (FileContent.list vs _) => vs
    | some (FileContent.scalar _ _ _) => []
    | some FileContent.corrupt => []
    | none => []
  { s with
    files := aset s.files (listFilePathL k) (FileContent.list (existing ++ [v]) now) }

/-- LocalFileStorage.append_to_list: a write failure is logged and re-raised
(a read failure of the existing list is only logged). -/
def appendOp {V : Type} (env : IOEnv) (s : FileStore V) (now : Nat) (k : String)
    (v : V) : Except Unit (FileStore V) :=
  if env.failWrite (listFilePathL k) then Except.error ()
  else Except.ok (appendCore s now k v)

/-- One bound of a Python slice, clamped to the list length; a negative index
counts from the end. -/
def clampIdx (n : Nat) (i : Int) : Nat :=
  if i < 0 then ((n : Int) + i).toNat else min i.toNat n

/-- Python list slicing vs[start:stop] (stop absent means to the end). -/
def pySlice {V : Type} (vs : List V) (start : Int) (stop? : Option Int) :
    List V :=
  let n := vs.length
  let b := clampIdx n start
  let e := match stop? with
    | none => n
    | some e => clampIdx n e
  (vs.take e).drop b

/-- LocalFileStorage.get_list: read the list file ('values' field); an absent
file, a scalar record or a read failure yield the empty list; an end index of
-1 means through the last element, otherwise the range is [start, end]. -/
def getListOp {V : Type} (s : FileStore V) (k : String) (start end_ : Int) :
    List V :=
  match alookup s.files (listFilePathL k) with
  | some (FileContent.list vs _) =>
    if end_ = -1 then pySlice vs start none
    else pySlice vs start (some (end_ + 1))
  | some (FileContent.scalar _ _ _) => []
  | some FileContent.corrupt => []
  | none => []

/-- HybridStorage: a primary backend, an optional secondary, and the sync
flag (off by default). Both concrete backends are file stores here; the
operations below model runs in which no I/O fault occurs. -/
structure Hybrid (V : Type) where
  primary : FileStore V
  secondary : Option (FileStore V)
  sync_enabled : Bool
deriving DecidableEq

/-- HybridStorage.get: read primary; on a miss read the secondary; when the
value was found only in the secondary and sync is enabled, write it back
into the primary (cache-fill, a plain set without ttl). -/
def hybridGet {V : Type} (h : Hybrid V) (now : Nat) (k : String) :
    Option V × Hybrid V :=
  let g1 := getOp h.primary now k
  match g1.1 with
  | some v => (some v, { h with primary := g1.2 })
  | none =>
    match h.secondary with
    | none => (none, { h with primary := g1.2 })
    | some sec =>
      let g2 := getOp sec now k
      match g2.1 with
      | none => (none, { h with primary := g1.2, secondary := some g2.2 })
      | some v2 =>
        if h.sync_enabled then
          (some v2, { h with primary := setCore g1.2 now k v2 none,
                             secondary := some g2.2 })
        else
          (some v2, { h with primary := g1.2, secondary := some g2.2 })

/-- The per-key body of HybridStorage.migrate_to_secondary, threading the
primary (a get may lazily delete an expired key there) and the secondary
through the enumerated keys: a key with a non-empty list has its entries
appended to the secondary's list; otherwise its scalar value, when present,
is copied with a plain set. -/
def migrateLoop {V : Type} (now : Nat) :
    FileStore V → FileStore V → List String → FileStore V × FileStore V
  | pr, sec, [] => (pr, sec)
  | pr, sec, k :: ks =>
    match getListOp pr k 0 (-1) with
    | [] =>
      let g := getOp pr now k
      match g.1 with
      | some v => migrateLoop now g.2 (setCore sec now k v none) ks
      | none => migrateLoop now g.2 sec ks
    | v0 :: vs =>
      migrateLoop now pr
        ((v0 :: vs).foldl (fun st v => appendCore st now k v) sec) ks

/-- HybridStorage.migrate_to_secondary: raises when no secondary is
configured (modelled as none); otherwise enumerate all primary keys with
pattern "*" and copy each one. -/
def migrateToSecondary {V : Type} (h : Hybrid V) (now : Nat) :
    Option (Hybrid V) :=
  match h.secondary with
  | none => none
  | some sec =>
    let keys := listKeysOp h.primary now "*"
    let r := migrateLoop now h.primary sec keys
    some { h with primary := r.1, secondary := some r.2 }

/-- The secondary's stored list for a key, when a secondary is configured. -/
def secListOf {V : Type} (h : Hybrid V) (k : String) : Option (List V) :=
  h.secondary.map (fun s => getListOp s k 0 (-1))

/-- JSON-representable Python metadata values, with Python truthiness. -/
inductive PyValue where
  | vBool (b : Bool)
  | vStr (s : String)
  | vInt (n : Int)
  | vNone
deriving DecidableEq

/-- Python truthiness of a metadata value. -/
def truthy : PyValue → Bool
  | PyValue.vBool b => b
  | PyValue.vStr s => !(s = "")
  | PyValue.vInt n => !(n = 0)
  | PyValue.vNone => false

/-- MessageType (core/message.py). -/
inductive MessageType where
  | text | image | audio | video | file | system
deriving DecidableEq

/-- MessageStatus (core/message.py). -/
inductive MessageStatus where
  | received | queued | processing | processed | failed | ignored
deriving DecidableEq

/-- Message (core/message.py); timestamps are instants, metadata is a dict. -/
structure Message where
  id : String
  sender_id : String
  recipient_id : String
  content : String
  type : MessageType
  timestamp : Nat
  metadata : List (String × PyValue)
  status : MessageStatus
  conversation_id : Option String
deriving DecidableEq

/-- metadata.get(key, default). -/
def metaGetD (m : List (String × PyValue)) (k : String) (d : PyValue) : PyValue :=
  (alookup m k).getD d

/-- metadata.get(key) compared against None: both an absent key and a stored
None read back as None. -/
def metaGetOpt (m : List (String × PyValue)) (k : String) : Option PyValue :=
  match alookup m k with
  | some PyValue.vNone => none
  | some v => some v
  | none => none

/-- Extract the string payload of a metadata value (conversation references
in metadata are strings in this codebase). -/
def pyStr? : PyValue → Option String
  | PyValue.vStr s => some s
  | _ => none

/-- RoutingDecision (core/interfaces.py). -/
structure RoutingDecision where
  should_process : Bool
  conversation_id : Option String
  create_new_conversation : Bool
  reason : String
  metadata : List (String × PyValue)
deriving DecidableEq

/-- RoutingRule (routing/router.py): a predicate, an action that may decline
by returning None (a constructed RoutingDecision object is always truthy),
and an integer priority. -/
structure RoutingRule where
  name : String
  condition : Message → Bool
  action : Message → Option RoutingDecision
  priority : Int

/-- Insert a rule into a descending-sorted list, before the first rule whose
priority is not greater: together with the fold below this realises the
(unique) stable descending sort that list.sort(key=priority, reverse=True)
performs in add_rule. -/
def insertDesc (r : RoutingRule) : List RoutingRule → List RoutingRule
  | [] => [r]
  | x :: xs => if x.priority > r.priority then x :: insertDesc r xs else r :: x :: xs

/-- Stable sort by strictly descending priority (insertion sort, which is
extensionally the stable sort used by Python). -/
def sortRulesDesc (l : List RoutingRule) : List RoutingRule :=
  l.foldr insertDesc []

/-- MessageRouter state: the rule list and the storage backend. -/
structure MessageRouter where
  rules : List RoutingRule
  storage : FileStore String

/-- MessageRouter.add_rule: append, then re-sort by descending priority
(stable). -/
def addRule (rt : MessageRouter) (r : RoutingRule) : MessageRouter :=
  { rt with rules := sortRulesDesc (rt.rules ++ [r]) }

/-- MessageRouter.register_rule: wrap a bare action into a rule with an
always-true condition at the default priority 50. -/
def registerRule (rt : MessageRouter) (name : String)
    (rule : Message → Option RoutingDecision) : MessageRouter :=
  addRule rt { name := name, condition := fun _ => true, action := rule,
               priority := 50 }

/-- Built-in rule "ignore_system" (priority 100). -/
def ignoreSystemRule : RoutingRule :=
  { name := "ignore_system",
    condition := fun msg => truthy (metaGetD msg.metadata "is_system" (PyValue.vBool false)),
    action := fun _ => some
      { should_process := false, conversation_id := none,
        create_new_conversation := false, reason := "System message ignored",
        metadata := [] },
    priority := 100 }

/-- Built-in rule "existing_conversation" (priority 90). -/
def existingConversationRule : RoutingRule :=
  { name := "existing_conversation",
    condition := fun msg => (metaGetOpt msg.metadata "reply_to_conversation").isSome,
    action := fun msg => some
      { should_process := true,
        conversation_id := (metaGetOpt msg.metadata "reply_to_conversation").bind pyStr?,
        create_new_conversation := false,
        reason := "Continuing existing conversation",
        metadata := [] },
    priority := 90 }

/-- MessageRouter.__init__: install the two built-in rules. -/
def mkRouter (storage : FileStore String) : MessageRouter :=
  addRule (addRule { rules := [], storage := storage } ignoreSystemRule)
    existingConversationRule

/-- The built-in rules in their installation order. -/
def defaultRulesList : List RoutingRule :=
  [ignoreSystemRule, existingConversationRule]

/-- The rule loop of MessageRouter.route: first rule whose condition holds
and whose action returns a (truthy) decision wins. -/
def evalRules : List RoutingRule → Message → Option RoutingDecision
  | [], _ => none
  | r :: rs, m =>
    if r.condition m then
      match r.action m with
      | some d => some d
      | none => evalRules rs m
    else evalRules rs m

/-- MessageRouter._find_active_conversation: last entry of the sender's
active-conversation list, if any (get_list does not mutate the store). -/
def findActiveConversation (s : FileStore String) (sender : String) :
    Option String :=
  (getListOp s ("active_conversations:" ++ sender) 0 (-1)).getLast?

/-- datetime.fromisoformat on a stored timestamp: instants are stored as
their canonical encodings, so parsing is modelled by the canonical decoder;
a malformed value raises (error). -/
def parseTime (s : String) : Option Nat := s.toNat?

/-- MessageRouter._is_conversation_active: read the conversation's
last_activity value; a falsy (absent or empty) value means inactive; a
malformed timestamp makes fromisoformat raise (error result); otherwise
active when now - last < 30 minutes. -/
def isConversationActive (s : FileStore String) (now : Nat) (cid : String) :
    Except String Bool × FileStore String :=
  let g := getOp s now ("conversation:" ++ cid ++ ":last_activity")
  match g.1 with
  | none => (Except.ok false, g.2)
  | some str =>
    if str = "" then (Except.ok false, g.2)
    else
      match parseTime str with
      | some t => (Except.ok (decide (now - t < 30 * 60)), g.2)
      | none => (Except.error "invalid isoformat string", g.2)

/-- Lower-case a string (the contents matched here are ASCII). -/
def lowerL (s : String) : List Char := s.data.map Char.toLower

/-- MessageRouter._should_start_conversation: greeting/help/start patterns
(the three regexes reduce to prefix and substring tests), an explicit start
flag, or any non-empty stripped content. -/
def shouldStartConversation (msg : Message) : Bool :=
  let cl := lowerL msg.content
  startsWithL "hi".data cl || startsWithL "hello".data cl
    || startsWithL "hey".data cl || startsWithL "start".data cl
    || startsWithL "help".data cl || startsWithL "assist".data cl
    || containsSubL "new conversation".data cl
    || containsSubL "new chat".data cl
    || truthy (metaGetD msg.metadata "start_conversation" (PyValue.vBool false))
    || !((msg.content.data.dropWhile Char.isWhitespace).reverse.dropWhile
          Char.isWhitespace = [])

/-- Steps 4-5 of MessageRouter.route's default logic: start a new
conversation when the heuristic holds, otherwise decline. -/
def routeStartOrDecline (msg : Message) (st : FileStore String) :
    RoutingDecision × FileStore String :=
  if shouldStartConversation msg then
    ({ should_process := true, conversation_id := none,
       create_new_conversation := true,
       reason := "Starting new conversation", metadata := [] }, st)
  else
    ({ should_process := false, conversation_id := none,
       create_new_conversation := false,
       reason := "No routing rule matched", metadata := [] }, st)

/-- The tail of MessageRouter.route after no rule fired: when the sender's
existing conversation id is truthy (`if existing_conversation_id:` — an
absent or empty id is falsy and skips the activity check), continue it if
still active; otherwise the start heuristic, else decline. -/
def routeFallback (existing : Option String) (st : FileStore String)
    (now : Nat) (msg : Message) : RoutingDecision × FileStore String :=
  match existing with
  | some cid =>
    if cid = "" then routeStartOrDecline msg st
    else
      let a := isConversationActive st now cid
      match a.1 with
      | Except.error e =>
        ({ should_process := false, conversation_id := none,
           create_new_conversation := false,
           reason := "Routing error: " ++ e, metadata := [] }, a.2)
      | Except.ok true =>
        ({ should_process := true, conversation_id := some cid,
           create_new_conversation := false,
           reason := "Continuing active conversation", metadata := [] }, a.2)
      | Except.ok false => routeStartOrDecline msg a.2
  | none => routeStartOrDecline msg st

/-- MessageRouter.route: look up the sender's most recent active
conversation, evaluate the rules in order (first match wins), then the
default logic; the surrounding try/except turns an evaluation fault (a
malformed stored timestamp) into a decline carrying the error text. -/
def routeOp (rt : MessageRouter) (now : Nat) (msg : Message) :
    RoutingDecision × FileStore String :=
  let existing := findActiveConversation rt.storage msg.sender_id
  match evalRules rt.rules msg with
  | some d => (d, rt.storage)
  | none => routeFallback existing rt.storage now msg

/-- ConversationContext (core/message.py). -/
structure ConversationContext where
  conversation_id : String
  participant_ids : List String
  created_at : Nat
  updated_at : Nat
  metadata : List (String × PyValue)
  is_active : Bool
  agent_id : Option String
  agent_persona : Option String
deriving DecidableEq

/-- Values stored by the conversation manager through the storage backend:
serialized contexts and messages are modelled by their parsed content
(json.loads after json.dumps is the identity), timestamps by their
instants; raw covers any other stored string. -/
inductive StoredVal where
  | timeStr (t : Nat)
  | ctxJson (c : ConversationContext)
  | msgJson (m : Message)
  | raw (s : String)
deriving DecidableEq

/-- Python truthiness of a stored string value (`if data:`): only the empty
string is falsy. -/
def truthyVal : StoredVal → Bool
  | StoredVal.raw s => !(s = "")
  | _ => true

/-- Storage key of a conversation's serialized context. -/
def ctxKey (cid : String) : String := "conversation:" ++ cid ++ ":context"

/-- Storage key of a participant's active-conversation list. -/
def activeKey (p : String) : String := "active_conversations:" ++ p

/-- ConversationManager.get_conversation: read the context record; a falsy
value reads as absent; deserializing anything that is not a serialized
context raises (json.loads or the field accesses fail). -/
def getConversationM (s : FileStore StoredVal) (now : Nat) (cid : String) :
    Except Unit (Option ConversationContext) × FileStore StoredVal :=
  let g := getOp s now (ctxKey cid)
  match g.1 with
  | none => (Except.ok none, g.2)
  | some v =>
    if truthyVal v then
      match v with
      | StoredVal.ctxJson c => (Except.ok (some c), g.2)
      | _ => (Except.error (), g.2)
    else (Except.ok none, g.2)

/-- ConversationManager._save_conversation_context: set the context record
(no ttl). -/
def saveContext (s : FileStore StoredVal) (now : Nat)
    (c : ConversationContext) : FileStore StoredVal :=
  setCore s now (ctxKey c.conversation_id) (StoredVal.ctxJson c) none

/-- ConversationManager.close_conversation: load the context (raising when
absent), flip is_active to false, bump updated_at, persist it, then delete
the whole active-conversations record of every participant. -/
def closeConversation (s : FileStore StoredVal) (now : Nat) (cid : String) :
    Except Unit (FileStore StoredVal) :=
  let g := getConversationM s now cid
  match g.1 with
  | Except.error _ => Except.error ()
  | Except.ok none => Except.error ()
  | Except.ok (some c) =>
    let c' := { c with is_active := false, updated_at := now }
    let s2 := saveContext g.2 now c'
    Except.ok (c'.participant_ids.foldl
      (fun st p => deleteOp st (activeKey p)) s2)

/-- The Agent capability as seen by the interceptor: may return a response
message, no response, or raise. It may touch shared state. -/
def AgentFn (σ : Type) : Type :=
  Message → ConversationContext → σ → Except Unit (Option Message) × σ

/-- MessageInterceptor state: its collaborators are the dependency-injected
router, conversation manager (whose storage effects are abstracted into a
state σ threaded through each call) and agents. route never raises (the
router catches its own faults); the manager operations and agents may. -/
structure Interceptor (σ : Type) where
  route : Message → σ → RoutingDecision × σ
  createConversation :
    Message → List (String × PyValue) → σ → Except Unit ConversationContext × σ
  getConversation : String → σ → Except Unit (Option ConversationContext) × σ
  updateConversation : Message → String → σ → Except Unit Unit × σ
  defaultAgent : Option (AgentFn σ)
  agents : List (String × AgentFn σ)
  preProcessors : List (Message → Except Unit Message)
  postProcessors : List (Message → Except Unit Message)

/-- Run a processor chain; on a raise, return the last successfully
produced message together with the failure flag. -/
def runProcs : List (Message → Except Unit Message) → Message → Message × Bool
  | [], m => (m, true)
  | p :: ps, m =>
    match p m with
    | Except.ok m' => runProcs ps m'
    | Except.error _ => (m, false)

/-- MessageInterceptor._select_agent: the conversation's bound agent when it
is truthy and registered, else the default agent (possibly none). -/
def selectAgent {σ : Type} (ic : Interceptor σ) (conv : ConversationContext) :
    Option (AgentFn σ) :=
  match conv.agent_id with
  | some aid =>
    if aid ≠ "" ∧ (alookup ic.agents aid).isSome then alookup ic.agents aid
    else ic.defaultAgent
  | none => ic.defaultAgent

/-- The part of MessageInterceptor.intercept after a conversation has been
bound: status PROCESSING, agent selection (a missing agent is a FAILED
terminal outcome returning None), agent call, conversation updates, status
PROCESSED and post-processors; any raise flips the status to FAILED and
propagates. -/
def interceptAfterConv {σ : Type} (ic : Interceptor σ) (m : Message)
    (conv : ConversationContext) (s : σ) :
    Except Unit (Option Message) × Message × σ :=
  let m4 := { m with status := MessageStatus.processing }
  match selectAgent ic conv with
  | none => (Except.ok none, { m4 with status := MessageStatus.failed }, s)
  | some ag =>
    let ar := ag m4 conv s
    match ar.1 with
    | Except.error _ =>
      (Except.error (), { m4 with status := MessageStatus.failed }, ar.2)
    | Except.ok resp? =>
      let u1 := ic.updateConversation m4 conv.conversation_id ar.2
      match u1.1 with
      | Except.error _ =>
        (Except.error (), { m4 with status := MessageStatus.failed }, u1.2)
      | Except.ok _ =>
        match resp? with
        | none =>
          (Except.ok none, { m4 with status := MessageStatus.processed }, u1.2)
        | some resp =>
          let u2 := ic.updateConversation resp conv.conversation_id u1.2
          match u2.1 with
          | Except.error _ =>
            (Except.error (), { m4 with status := MessageStatus.failed }, u2.2)
          | Except.ok _ =>
            let m5 := { m4 with status := MessageStatus.processed }
            let po := runProcs ic.postProcessors resp
            if po.2 then (Except.ok (some po.1), m5, u2.2)
            else (Except.error (), { m5 with status := MessageStatus.failed }, u2.2)

/-- MessageInterceptor.intercept: pre-processors, status QUEUED, routing;
a declined decision is IGNORED with None returned; conversation resolution
(create, or fetch by a truthy target id — a missing target and an absent
target are FAILED terminal outcomes returning None); then the processing
tail. Any raise flips the current message's status to FAILED and
propagates. The returned triple is (result or raise, the message with its
final status, the final collaborator state). -/
def interceptOp {σ : Type} (ic : Interceptor σ) (msg : Message) (s : σ) :
    Except Unit (Option Message) × Message × σ :=
  let pr := runProcs ic.preProcessors msg
  if pr.2 = false then
    (Except.error (), { pr.1 with status := MessageStatus.failed }, s)
  else
    let m2 := { pr.1 with status := MessageStatus.queued }
    let rd := ic.route m2 s
    if rd.1.should_process = false then
      (Except.ok none, { m2 with status := MessageStatus.ignored }, rd.2)
    else if rd.1.create_new_conversation then
      let cr := ic.createConversation m2 rd.1.metadata rd.2
      match cr.1 with
      | Except.error _ =>
        (Except.error (), { m2 with status := MessageStatus.failed }, cr.2)
      | Except.ok conv =>
        interceptAfterConv ic
          { m2 with conversation_id := some conv.conversation_id } conv cr.2
    else
      match rd.1.conversation_id with
      | some cid =>
        if cid = "" then
          (Except.ok none, { m2 with status := MessageStatus.failed }, rd.2)
        else
          let gc := ic.getConversation cid rd.2
          match gc.1 with
          | Except.error _ =>
            (Except.error (), { m2 with status := MessageStatus.failed }, gc.2)
          | Except.ok none =>
            (Except.ok none, { m2 with status := MessageStatus.failed }, gc.2)
          | Except.ok (some conv) =>
            interceptAfterConv ic
              { m2 with conversation_id := some conv.conversation_id } conv gc.2
      | none =>
        (Except.ok none, { m2 with status := MessageStatus.failed }, rd.2)

/-- A concrete interceptor over a unit collaborator state: its router
declines every message; it has no agents and no processors. -/
def icW : Interceptor Unit :=
  { route := fun _ u =>
      ({ should_process := false, conversation_id := none,
         create_new_conversation := false, reason := "declined",
         metadata := [] }, u),
    createConversation := fun _ _ u => (Except.error (), u),
    getConversation := fun _ u => (Except.ok none, u),
    updateConversation := fun _ _ u => (Except.ok (), u),
    defaultAgent := none,
    agents := [],
    preProcessors := [],
    postProcessors := [] }

/-- A key that survives the file backend's name round-trip: no underscore in
the key, and no "_list" substring in its colon-translated file stem. -/
def cleanKey (k : String) : Bool :=
  !(decide ('_' ∈ k.data)) && !(containsSubL "_list".data (safeKeyL k))

/-- The pattern has no border: no proper non-empty prefix of it is also a
suffix (so an occurrence cannot straddle a concatenation boundary). -/
def noBorder (pat : List Char) : Prop :=
  ∀ b : Nat, 0 < b → b < pat.length →
    pat.take b ≠ pat.drop (pat.length - b)

/-- Concrete hybrid store for the migration analysis: the primary holds one
list key "k" with a single entry, the secondary is empty, sync is off. -/
def hC7 : Hybrid String :=
  { primary := appendCore emptyStore 0 "k" "v",
    secondary := some emptyStore,
    sync_enabled := false }

/-- Concrete file store whose scalar record for "k" is present but
unreadable. -/
def corruptStore : FileStore String :=
  { files := [(filePathL "k", FileContent.corrupt)], ttl := [] }

/-- Concrete hybrid store holding only the scalar key "s" in the primary. -/
def hC7b : Hybrid String :=
  { primary := setCore emptyStore 0 "s" "v" none,
    secondary := some emptyStore,
    sync_enabled := false }

/-- A concrete plain message. -/
def msgW : Message :=
  { id := "w", sender_id := "s", recipient_id := "r", content := "x",
    type := MessageType.text, timestamp := 0, metadata := [],
    status := MessageStatus.received, conversation_id := none }

/-- A concrete message whose metadata marks it as a system message. -/
def msgSysW : Message :=
  { id := "m1", sender_id := "s", recipient_id := "r", content := "hello",
    type := MessageType.text, timestamp := 0,
    metadata := [("is_system", PyValue.vBool true)],
    status := MessageStatus.received, conversation_id := none }

/-- A concrete conversation context. -/
def ctxW : ConversationContext :=
  { conversation_id := "c1", participant_ids := ["p1", "p2"],
    created_at := 0, updated_at := 0, metadata := [], is_active := true,
    agent_id := none, agent_persona := none }

/-- A concrete store holding the context record of conversation "c1". -/
def storeW : FileStore StoredVal :=
  setCore emptyStore 0 (ctxKey "c1") (StoredVal.ctxJson ctxW) none

/-- A concrete routing decision produced by a concrete custom rule. -/
def hiDecision : RoutingDecision :=
  { should_process := true, conversation_id := none,
    create_new_conversation := true, reason := "hi", metadata := [] }

/-- A concrete custom rule whose priority exceeds both built-in rules. -/
def hiRule : RoutingRule :=
  { name := "hi", condition := fun _ => true,
    action := fun _ => some hiDecision, priority := 200 }

/-- The sequence of scalar copies a migration run performs over a key list
(each key's primary value, when present, written at its scalar file name). -/
def scalarWrites {V : Type} (pr : FileStore V) (now : Nat)
    (keys : List String) : List (List Char × FileContent V) :=
  keys.filterMap (fun k => ((getOp pr now k).1).map
    (fun v => (filePathL k, FileContent.scalar v now none)))

/-- The rule-order invariant: priorities are non-increasing along the list. -/
def sortedDescRules (l : List RoutingRule) : Prop :=
  List.Chain' (fun a b => b.priority ≤ a.priority) l

/-! ### Association-list and storage lemmas -/

theorem alookup_aset_self {κ α : Type} [DecidableEq κ] (m : List (κ × α))
    (k : κ) (v : α) : alookup (aset m k v) k = some v := by
  simp [aset, alookup]

theorem alookup_filter_none {κ α : Type} [DecidableEq κ] (p : κ × α → Bool)
    (k : κ) (hp : ∀ v, p (k, v) = false) (m : List (κ × α)) :
    alookup (m.filter p) k = none := by
  induction m with
  | nil => rfl
  | cons q m ih =>
    rw [List.filter_cons]
    by_cases h : p q = true
    · rw [if_pos h]
      have hq : q.1 ≠ k := by
        intro hk
        have h2 := hp q.2
        rw [← hk, Prod.mk.eta] at h2
        rw [h2] at h
        exact Bool.false_ne_true h
      simpa [alookup, hq] using ih
    · rw [if_neg h]
      exact ih

theorem alookup_filter_preserve {κ α : Type} [DecidableEq κ] (p : κ × α → Bool)
    (k : κ) (hp : ∀ v, p (k, v) = true) (m : List (κ × α)) :
    alookup (m.filter p) k = alookup m k := by
  induction m with
  | nil => rfl
  | cons q m ih =>
    rw [List.filter_cons]
    by_cases hk : q.1 = k
    · have hq : p q = true := by
        rw [← Prod.mk.eta (p := q), hk]
        exact hp q.2
      rw [if_pos hq]
      simp [alookup, hk]
    · by_cases h : p q = true
      · rw [if_pos h]
        simpa [alookup, hk] using ih
      · rw [if_neg h]
        rw [ih]
        simp [alookup, hk]

theorem alookup_filter_none_of_none {κ α : Type} [DecidableEq κ]
    (p : κ × α → Bool) (k : κ) (m : List (κ × α))
    (hm : alookup m k = none) : alookup (m.filter p) k = none := by
  induction m with
  | nil => rfl
  | cons q m ih =>
    by_cases hk : q.1 = k
    · simp [alookup, hk] at hm
    · rw [alookup] at hm
      rw [if_neg hk] at hm
      rw [List.filter_cons]
      by_cases h : p q = true
      · rw [if_pos h]
        rw [alookup, if_neg hk]
        exact ih hm
      · rw [if_neg h]
        exact ih hm

theorem alookup_aerase_self {κ α : Type} [DecidableEq κ] (m : List (κ × α))
    (k : κ) : alookup (aerase m k) k = none := by
  apply alookup_filter_none
  intro v
  simp

theorem alookup_aerase_ne {κ α : Type} [DecidableEq κ] (m : List (κ × α))
    (k k' : κ) (h : k' ≠ k) : alookup (aerase m k) k' = alookup m k' := by
  apply alookup_filter_preserve
  intro v
  simp [h]

theorem alookup_aset_ne {κ α : Type} [DecidableEq κ] (m : List (κ × α))
    (k k' : κ) (v : α) (h : k' ≠ k) :
    alookup (aset m k v) k' = alookup m k' := by
  rw [aset, alookup, if_neg (fun hk => h hk.symm)]
  exact alookup_aerase_ne m k k' h

theorem alookup_mem {κ α : Type} [DecidableEq κ] {m : List (κ × α)} {k : κ}
    {v : α} (h : alookup m k = some v) : (k, v) ∈ m := by
  induction m with
  | nil => exact absurd h (by simp [alookup])
  | cons q m ih =>
    rw [alookup] at h
    by_cases hk : q.1 = k
    · rw [if_pos hk] at h
      have hq : q = (k, v) := Prod.ext hk (Option.some_inj.mp h)
      rw [← hq]
      exact List.mem_cons_self q m
    · rw [if_neg hk] at h
      exact List.mem_cons_of_mem _ (ih h)

theorem deleteOp_file_self {V : Type} (s : FileStore V) (k : String) :
    alookup (deleteOp s k).files (filePathL k) = none := by
  apply alookup_filter_none
  intro v
  simp

theorem deleteOp_listfile_self {V : Type} (s : FileStore V) (k : String) :
    alookup (deleteOp s k).files (listFilePathL k) = none := by
  apply alookup_filter_none
  intro v
  simp

theorem deleteOp_ttl_self {V : Type} (s : FileStore V) (k : String) :
    alookup (deleteOp s k).ttl k = none :=
  alookup_aerase_self s.ttl k

theorem deleteOp_files_ne {V : Type} (s : FileStore V) (k : String)
    (f : List Char) (h1 : f ≠ filePathL k) (h2 : f ≠ listFilePathL k) :
    alookup (deleteOp s k).files f = alookup s.files f := by
  apply alookup_filter_preserve
  intro v
  simp [h1, h2]

theorem deleteOp_files_none {V : Type} (s : FileStore V) (k : String)
    (f : List Char) (h : alookup s.files f = none) :
    alookup (deleteOp s k).files f = none :=
  alookup_filter_none_of_none _ _ _ h

theorem isExpired_deleteOp {V : Type} (s : FileStore V) (now : Nat)
    (k : String) : isExpired (deleteOp s k) now k = false := by
  rw [isExpired, deleteOp]
  rw [show (aerase s.ttl k) = aerase s.ttl k from rfl]
  rw [alookup_aerase_self]

theorem getOp_snd_of_not_expired {V : Type} (s : FileStore V) (now : Nat)
    (k : String) (h : isExpired s now k = false) : (getOp s now k).2 = s := by
  rw [getOp, if_neg (by rw [h]; exact Bool.false_ne_true)]
  cases halookup : alookup s.files (filePathL k) with
  | none => rfl
  | some fc => cases fc <;> rfl

theorem isExpired_getOp_post {V : Type} (s : FileStore V) (now : Nat)
    (k : String) : isExpired ((getOp s now k).2) now k = false := by
  cases h : isExpired s now k with
  | true =>
    rw [getOp, if_pos (by rw [h])]
    exact isExpired_deleteOp s now k
  | false =>
    rw [getOp_snd_of_not_expired s now k h]
    exact h

theorem getOp_fst_scalar {V : Type} (s : FileStore V) (now : Nat) (k : String)
    (v : V) (c : Nat) (t : Option Nat) (h : isExpired s now k = false)
    (hl : alookup s.files (filePathL k) = some (FileContent.scalar v c t)) :
    (getOp s now k).1 = some v := by
  rw [getOp, if_neg (by rw [h]; exact Bool.false_ne_true), hl]

/-! ### Claim C3 -/

/-- Claim C3 evaluation at the failing input: set "k" with ttl 1 at time 0,
overwrite it at time 0 with a plain set carrying no ttl, read at time 2.
The claim (and the spec: absence of ttl means no expiry) requires the value
"b"; the code leaves the stale registry entry from the first set in place,
so the read reports the key expired and absent. -/
theorem c3_set_without_ttl_keeps_stale_expiry :
    (getOp (setCore (setCore (emptyStore : FileStore String) 0 "k" "a"
      (some 1)) 0 "k" "b" none) 2 "k").1 = none := by decide

/-! ### Claim C4 -/

/-- Claim C4 counterexample: the claim quantifies over every ttl value n,
but at n = 0 the guard `if ttl:` is falsy and no expiry is registered, so
after set(k, v, ttl=0) at time 0 both get and exists still report the key
present at time 1, strictly after the claimed expiry instant now+0. -/
theorem c4_counterexample_ttl_zero :
    (getOp (setCore (emptyStore : FileStore String) 0 "k" "v" (some 0))
      1 "k").1 = some "v" ∧
    (existsOp (setCore (emptyStore : FileStore String) 0 "k" "v" (some 0))
      1 "k").1 = true := by
  decide

/-- Claim C4 (amended): for the file backend, after set(k, v, ttl=n) with a
truthy (positive) n — a ttl of 0 is falsy in Python, registers no expiry
and leaves the key permanent — get returns v at any time up to the expiry
instant now+n; strictly after it, get reports absent and exists reports
false (the two agree), and that first access deletes the stored record:
neither the scalar file, nor the list file, nor the registry entry for k
survives it. -/
theorem c4_ttl_expiry {V : Type} (s : FileStore V) (now n : Nat) (k : String)
    (v : V) (hn : 0 < n) :
    (∀ t, t ≤ now + n →
      (getOp (setCore s now k v (some n)) t k).1 = some v) ∧
    (∀ t, now + n < t →
      (getOp (setCore s now k v (some n)) t k).1 = none ∧
      (existsOp (setCore s now k v (some n)) t k).1 = false ∧
      alookup ((getOp (setCore s now k v (some n)) t k).2).files
        (filePathL k) = none ∧
      alookup ((getOp (setCore s now k v (some n)) t k).2).files
        (listFilePathL k) = none ∧
      alookup ((getOp (setCore s now k v (some n)) t k).2).ttl k = none) := by
  have hne : ¬ n = 0 := by omega
  have hset : setCore s now k v (some n) =
      { files := aset s.files (filePathL k) (FileContent.scalar v now (some n)),
        ttl := aset s.ttl k (now + n) } := by
    simp [setCore, hne]
  have hexp : ∀ t, isExpired (setCore s now k v (some n)) t k
      = decide (now + n < t) := by
    intro t
    rw [hset, isExpired]
    simp only [alookup_aset_self]
  constructor
  · intro t ht
    have h1 : isExpired (setCore s now k v (some n)) t k = false := by
      rw [hexp]
      simp
      omega
    apply getOp_fst_scalar _ _ _ v now (some n) h1
    rw [hset]
    exact alookup_aset_self _ _ _
  · intro t ht
    have h1 : isExpired (setCore s now k v (some n)) t k = true := by
      rw [hexp]
      simpa using ht
    have hg : getOp (setCore s now k v (some n)) t k
        = (none, deleteOp (setCore s now k v (some n)) k) := by
      rw [getOp, if_pos (by rw [h1])]
    refine ⟨by rw [hg], ?_, ?_, ?_, ?_⟩
    · rw [existsOp, if_pos (by rw [h1])]
    · rw [hg]
      exact deleteOp_file_self _ _
    · rw [hg]
      exact deleteOp_listfile_self _ _
    · rw [hg]
      exact deleteOp_ttl_self _ _

/-- Witness for C4 at n = 1, now = 0, on the empty store. -/
theorem c4_ttl_expiry_witness :
    (0 : Nat) < 1 ∧
    (getOp (setCore (emptyStore : FileStore String) 0 "k" "v" (some 1))
      1 "k").1 = some "v" ∧
    (getOp (setCore (emptyStore : FileStore String) 0 "k" "v" (some 1))
      2 "k").1 = none ∧
    (existsOp (setCore (emptyStore : FileStore String) 0 "k" "v" (some 1))
      2 "k").1 = false := by
  refine ⟨by decide, ?_, ?_, ?_⟩
  · exact (c4_ttl_expiry emptyStore 0 1 "k" "v" (by decide)).1 1 (by decide)
  · exact ((c4_ttl_expiry emptyStore 0 1 "k" "v" (by decide)).2 2
      (by decide)).1
  · exact ((c4_ttl_expiry emptyStore 0 1 "k" "v" (by decide)).2 2
      (by decide)).2.1

/-! ### Claim C8 -/

/-- Claim C8 counterexample: get on a present but unreadable record reports
the key absent. The faithful model of LocalFileStorage.get is total — the
Python code catches the read error, logs it and returns None — so a read
fault is never re-raised to the caller, contrary to the claim. -/
theorem c8_counterexample_get_masks_read_error :
    (getOp corruptStore 0 "k").1 = none := by decide

/-- Claim C8 (amended): set and append_to_list log and re-raise write
failures; get masks a read or parse failure of a present record by
reporting the key absent; append_to_list masks a read failure of the
existing list by treating it as empty, re-raising only write failures. -/
theorem c8_error_propagation {V : Type} :
    (∀ (env : IOEnv) (s : FileStore V) (now : Nat) (k : String) (v : V)
        (ttl? : Option Nat), env.failWrite (filePathL k) = true →
        setOp env s now k v ttl? = Except.error ()) ∧
    (∀ (env : IOEnv) (s : FileStore V) (now : Nat) (k : String) (v : V),
        env.failWrite (listFilePathL k) = true →
        appendOp env s now k v = Except.error ()) ∧
    (∀ (s : FileStore V) (now : Nat) (k : String),
        alookup s.files (filePathL k) = some FileContent.corrupt →
        (getOp s now k).1 = none) ∧
    (∀ (env : IOEnv) (s : FileStore V) (now : Nat) (k : String) (v : V),
        env.failWrite (listFilePathL k) = false →
        alookup s.files (listFilePathL k) = some FileContent.corrupt →
        appendOp env s now k v = Except.ok
          { s with
            files := aset s.files (listFilePathL k) (FileContent.list [v] now) }) := by
  refine ⟨?_, ?_, ?_, ?_⟩
  · intro env s now k v ttl? h
    rw [setOp, if_pos (by rw [h])]
  · intro env s now k v h
    rw [appendOp, if_pos (by rw [h])]
  · intro s now k h
    cases he : isExpired s now k with
    | true => rw [getOp, if_pos (by rw [he])]
    | false =>
      rw [getOp, if_neg (by rw [he]; exact Bool.false_ne_true), h]
  · intro env s now k v henv hc
    rw [appendOp, if_neg (by rw [henv]; exact Bool.false_ne_true),
      appendCore, hc]
    rfl

/-- Witness for C8 with a concrete failing environment and a concrete
corrupt store. -/
theorem c8_error_propagation_witness :
    (IOEnv.mk (fun f => decide (f = filePathL "k"))).failWrite
      (filePathL "k") = true ∧
    setOp (IOEnv.mk (fun f => decide (f = filePathL "k")))
      (emptyStore : FileStore String) 0 "k" "v" none = Except.error () ∧
    (getOp corruptStore 5 "k").1 = none := by
  refine ⟨by simp, ?_, ?_⟩
  · exact (c8_error_propagation (V := String)).1 _ emptyStore 0 "k" "v" none
      (by simp)
  · exact (c8_error_propagation (V := String)).2.2.1 corruptStore 5 "k"
      (by decide)

/-! ### Claim C6 -/

theorem setCore_ttl_none {V : Type} (s : FileStore V) (now : Nat) (k : String)
    (v : V) : (setCore s now k v none).ttl = s.ttl := rfl

theorem hybridGet_sync_fill {V : Type} (h : Hybrid V) (now : Nat) (k : String)
    (sec : FileStore V) (v : V) (hs : h.secondary = some sec)
    (hp : (getOp h.primary now k).1 = none)
    (hv : (getOp sec now k).1 = some v) (hsync : h.sync_enabled = true) :
    hybridGet h now k = (some v,
      { h with primary := setCore (getOp h.primary now k).2 now k v none,
               secondary := some (getOp sec now k).2 }) := by
  simp only [hybridGet, hp, hs, hv, hsync]
  simp

/-- Claim C6: HybridStorage.get serves a primary hit without consulting the
secondary; on a primary miss with a secondary configured it returns the
secondary's value; when the value was found only in the secondary and sync
is enabled it is cache-filled into the primary, so a subsequent get is
served via the primary (same value, no further state change); with sync
disabled the fallback read writes nothing into the primary (the primary
undergoes only its own read, which at most lazily expires the key). -/
theorem c6_hybrid_get_fallback {V : Type} (h : Hybrid V) (now : Nat)
    (k : String) :
    (∀ v, (getOp h.primary now k).1 = some v →
       hybridGet h now k = (some v, { h with primary := (getOp h.primary now k).2 })) ∧
    (∀ sec v, h.secondary = some sec → (getOp h.primary now k).1 = none →
       (getOp sec now k).1 = some v → (hybridGet h now k).1 = some v) ∧
    (∀ sec v, h.secondary = some sec → h.sync_enabled = true →
       (getOp h.primary now k).1 = none → (getOp sec now k).1 = some v →
       (getOp (hybridGet h now k).2.primary now k).1 = some v ∧
       hybridGet (hybridGet h now k).2 now k = (some v, (hybridGet h now k).2)) ∧
    (∀ sec, h.secondary = some sec → h.sync_enabled = false →
       (getOp h.primary now k).1 = none →
       (hybridGet h now k).2.primary = (getOp h.primary now k).2) := by
  refine ⟨?_, ?_, ?_, ?_⟩
  · intro v hv
    simp only [hybridGet]
    rw [hv]
  · intro sec v hs hp hv
    simp only [hybridGet, hp, hs, hv]
    cases hsy : h.sync_enabled <;> simp [hsy]
  · intro sec v hs hsync hp hv
    rw [hybridGet_sync_fill h now k sec v hs hp hv hsync]
    have hexp : isExpired (setCore (getOp h.primary now k).2 now k v none)
        now k = false := by
      rw [isExpired, setCore_ttl_none]
      have := isExpired_getOp_post h.primary now k
      rw [isExpired] at this
      exact this
    have hlook : alookup (setCore (getOp h.primary now k).2 now k v none).files
        (filePathL k) = some (FileContent.scalar v now none) := by
      rw [setCore]
      exact alookup_aset_self _ _ _
    have hget1 : (getOp (setCore (getOp h.primary now k).2 now k v none)
        now k).1 = some v := getOp_fst_scalar _ _ _ v now none hexp hlook
    refine ⟨hget1, ?_⟩
    simp only [hybridGet]
    rw [hget1]
    rw [getOp_snd_of_not_expired _ now k hexp]
  · intro sec hs hsync hp
    simp only [hybridGet, hp, hs, hsync]
    cases hv : (getOp sec now k).1 with
    | none => simp [hv]
    | some v2 => simp [hv]

/-- Witness for C6: the key lives only in the secondary; with sync enabled
the first get returns it and cache-fills the primary. -/
theorem c6_hybrid_get_fallback_witness :
    (Hybrid.mk (emptyStore : FileStore String)
        (some (setCore emptyStore 0 "k" "v" none)) true).secondary
      = some (setCore emptyStore 0 "k" "v" none) ∧
    (hybridGet (Hybrid.mk (emptyStore : FileStore String)
        (some (setCore emptyStore 0 "k" "v" none)) true) 0 "k").1 = some "v" ∧
    (getOp (hybridGet (Hybrid.mk (emptyStore : FileStore String)
        (some (setCore emptyStore 0 "k" "v" none)) true) 0 "k").2.primary
      0 "k").1 = some "v" := by
  refine ⟨rfl, ?_, ?_⟩
  · exact (c6_hybrid_get_fallback (Hybrid.mk emptyStore
      (some (setCore emptyStore 0 "k" "v" none)) true) 0 "k").2.1
      (setCore emptyStore 0 "k" "v" none) "v" rfl (by decide) (by decide)
  · exact ((c6_hybrid_get_fallback (Hybrid.mk emptyStore
      (some (setCore emptyStore 0 "k" "v" none)) true) 0 "k").2.2.1
      (setCore emptyStore 0 "k" "v" none) "v" rfl rfl (by decide) (by decide)).1

/-! ### Claim C7 -/

theorem alookup_append {κ α : Type} [DecidableEq κ] (l1 l2 : List (κ × α))
    (k : κ) : alookup (l1 ++ l2) k =
      match alookup l1 k with
      | some v => some v
      | none => alookup l2 k := by
  induction l1 with
  | nil => rfl
  | cons q l1 ih =>
    by_cases h : q.1 = k
    · simp [alookup, h]
    · simp [alookup, h, ih]

theorem listKeys_not_expired {V : Type} (s : FileStore V) (now : Nat)
    (p : String) : ∀ k ∈ listKeysOp s now p, isExpired s now k = false := by
  intro k hk
  simp only [listKeysOp] at hk
  have h2 := (List.mem_filter.mp hk).2
  simpa using h2

theorem migrateLoop_primary {V : Type} (now : Nat) (pr : FileStore V) :
    ∀ (keys : List String) (sec : FileStore V),
      (∀ k ∈ keys, isExpired pr now k = false) →
      (migrateLoop now pr sec keys).1 = pr := by
  intro keys
  induction keys with
  | nil => intro sec _; rfl
  | cons k ks ih =>
    intro sec hexp
    have hk0 : isExpired pr now k = false := hexp k (List.mem_cons_self k ks)
    have hks : ∀ k' ∈ ks, isExpired pr now k' = false :=
      fun k' h => hexp k' (List.mem_cons_of_mem _ h)
    simp only [migrateLoop]
    cases hl : getListOp pr k 0 (-1) with
    | nil =>
      rcases hge : getOp pr now k with ⟨v?, pr'⟩
      have hpr' : pr' = pr := by
        have h2 := getOp_snd_of_not_expired pr now k hk0
        rw [hge] at h2
        exact h2
      subst hpr'
      cases v? with
      | some v => exact ih (setCore sec now k v none) hks
      | none => exact ih sec hks
    | cons v0 vs => exact ih _ hks

theorem migrateLoop_scalar {V : Type} (now : Nat) (pr : FileStore V) :
    ∀ (keys : List String) (sec : FileStore V),
      (∀ k ∈ keys, isExpired pr now k = false) →
      (∀ k ∈ keys, getListOp pr k 0 (-1) = []) →
      (migrateLoop now pr sec keys).2 =
        { files := asetSeq sec.files (scalarWrites pr now keys),
          ttl := sec.ttl } := by
  intro keys
  induction keys with
  | nil => intro sec _ _; rfl
  | cons k ks ih =>
    intro sec hexp hsc
    have hk0 : isExpired pr now k = false := hexp k (List.mem_cons_self k ks)
    have hks : ∀ k' ∈ ks, isExpired pr now k' = false :=
      fun k' h => hexp k' (List.mem_cons_of_mem _ h)
    have hscs : ∀ k' ∈ ks, getListOp pr k' 0 (-1) = [] :=
      fun k' h => hsc k' (List.mem_cons_of_mem _ h)
    simp only [migrateLoop]
    rw [hsc k (List.mem_cons_self k ks)]
    rcases hge : getOp pr now k with ⟨v?, pr'⟩
    have hpr' : pr' = pr := by
      have h2 := getOp_snd_of_not_expired pr now k hk0
      rw [hge] at h2
      exact h2
    rw [hpr']
    have hfst : (getOp pr now k).1 = v? := by rw [hge]
    cases v? with
    | some v =>
      rw [ih (setCore sec now k v none) hks hscs]
      simp only [scalarWrites, List.filterMap_cons, hfst]
      rfl
    | none =>
      rw [ih sec hks hscs]
      simp only [scalarWrites, List.filterMap_cons, hfst]
      rfl

theorem alookup_asetSeq_none {κ α : Type} [DecidableEq κ] :
    ∀ (ws m : List (κ × α)) (f : κ), alookup ws.reverse f = none →
      alookup (asetSeq m ws) f = alookup m f := by
  intro ws
  induction ws with
  | nil => intro m f _; rfl
  | cons w ws ih =>
    intro m f hw
    rw [List.reverse_cons, alookup_append] at hw
    cases hrev : alookup ws.reverse f with
    | some v =>
      rw [hrev] at hw
      exact absurd hw (by simp)
    | none =>
      rw [hrev] at hw
      have hne : f ≠ w.1 := by
        intro he
        rw [alookup, if_pos he.symm] at hw
        exact Option.some_ne_none _ hw
      show alookup (asetSeq (aset m w.1 w.2) ws) f = alookup m f
      rw [ih (aset m w.1 w.2) f hrev]
      exact alookup_aset_ne m w.1 f w.2 hne

theorem alookup_asetSeq_some {κ α : Type} [DecidableEq κ] :
    ∀ (ws m : List (κ × α)) (f : κ) (v : α), alookup ws.reverse f = some v →
      alookup (asetSeq m ws) f = some v := by
  intro ws
  induction ws with
  | nil =>
    intro m f v hw
    exact absurd hw (by simp [alookup])
  | cons w ws ih =>
    intro m f v hw
    rw [List.reverse_cons, alookup_append] at hw
    cases hrev : alookup ws.reverse f with
    | some v' =>
      rw [hrev] at hw
      show alookup (asetSeq (aset m w.1 w.2) ws) f = some v
      rw [ih (aset m w.1 w.2) f v' hrev]
      exact hw
    | none =>
      rw [hrev] at hw
      by_cases he : w.1 = f
      · rw [alookup, if_pos he] at hw
        show alookup (asetSeq (aset m w.1 w.2) ws) f = some v
        rw [alookup_asetSeq_none ws (aset m w.1 w.2) f hrev, he,
          alookup_aset_self]
        exact hw
      · rw [alookup, if_neg he] at hw
        exact absurd hw (by simp [alookup])

theorem asetSeq_idem {κ α : Type} [DecidableEq κ] (ws m : List (κ × α))
    (f : κ) :
    alookup (asetSeq (asetSeq m ws) ws) f = alookup (asetSeq m ws) f := by
  cases hrev : alookup ws.reverse f with
  | some v =>
    rw [alookup_asetSeq_some ws (asetSeq m ws) f v hrev,
      alookup_asetSeq_some ws m f v hrev]
  | none =>
    rw [alookup_asetSeq_none ws (asetSeq m ws) f hrev]

/-- Claim C7 counterexample: on a primary holding the single list key "k"
with one entry, running migrate_to_secondary twice leaves the secondary's
list different from running it once (entries are appended again, not
overwritten; moreover a single run already copies each list key twice,
because its file matches both glob patterns of list_keys("*")). -/
theorem c7_counterexample_migrate_not_idempotent :
    ((migrateToSecondary hC7 0).bind (fun h1 => migrateToSecondary h1 0)).map
        (fun h2 => secListOf h2 "k")
      ≠ (migrateToSecondary hC7 0).map (fun h1 => secListOf h1 "k") := by
  decide

/-- Claim C7 (amended): migrate_to_secondary enumerates all primary keys
with pattern "*" and copies each: a key with a non-empty list has its
entries appended to the secondary's list (so each further run appends them
again — and one run with pattern "*" already processes every list key
twice since its file matches both glob patterns), otherwise its scalar
value is copied via set; it deletes nothing from the primary (the primary
is left entirely unchanged); and re-running it is idempotent for scalar
data: when no enumerated key holds a list, a second run leaves the
secondary observationally unchanged. -/
theorem c7_migrate_effects {V : Type} (h : Hybrid V) (now : Nat) :
    (∀ h', migrateToSecondary h now = some h' → h'.primary = h.primary) ∧
    (∀ h', migrateToSecondary h now = some h' →
      (∀ k ∈ listKeysOp h.primary now "*", getListOp h.primary k 0 (-1) = []) →
      ∃ h'', migrateToSecondary h' now = some h'' ∧
        h''.primary = h'.primary ∧
        ∀ sec1 sec2, h'.secondary = some sec1 → h''.secondary = some sec2 →
          sec2.ttl = sec1.ttl ∧
          ∀ f, alookup sec2.files f = alookup sec1.files f) := by
  have hexp : ∀ k ∈ listKeysOp h.primary now "*",
      isExpired h.primary now k = false :=
    listKeys_not_expired h.primary now "*"
  constructor
  · intro h' hmig
    cases hsec : h.secondary with
    | none =>
      rw [migrateToSecondary, hsec] at hmig
      exact absurd hmig (by simp)
    | some sec =>
      rw [migrateToSecondary, hsec] at hmig
      have h'eq := Option.some.inj hmig
      rw [← h'eq]
      exact migrateLoop_primary now h.primary _ sec hexp
  · intro h' hmig hsc
    cases hsec : h.secondary with
    | none =>
      rw [migrateToSecondary, hsec] at hmig
      exact absurd hmig (by simp)
    | some sec =>
      rw [migrateToSecondary, hsec] at hmig
      have h'eq := Option.some.inj hmig
      have hpr : h'.primary = h.primary := by
        rw [← h'eq]
        exact migrateLoop_primary now h.primary _ sec hexp
      have h'sec : h'.secondary
          = some (migrateLoop now h.primary sec
              (listKeysOp h.primary now "*")).2 := by
        rw [← h'eq]
      refine ⟨{ h' with
          primary := (migrateLoop now h'.primary
            (migrateLoop now h.primary sec (listKeysOp h.primary now "*")).2
            (listKeysOp h'.primary now "*")).1,
          secondary := some (migrateLoop now h'.primary
            (migrateLoop now h.primary sec (listKeysOp h.primary now "*")).2
            (listKeysOp h'.primary now "*")).2 }, ?_, ?_, ?_⟩
      · rw [migrateToSecondary, h'sec]
      · simp only [hpr]
        exact migrateLoop_primary now h.primary _ _ hexp
      · intro sec1 sec2 hs1 hs2
        rw [h'sec] at hs1
        have hsec1 : sec1 = (migrateLoop now h.primary sec
            (listKeysOp h.primary now "*")).2 := (Option.some.inj hs1).symm
        have hsec2 : sec2 = (migrateLoop now h'.primary
            (migrateLoop now h.primary sec (listKeysOp h.primary now "*")).2
            (listKeysOp h'.primary now "*")).2 := (Option.some.inj hs2).symm
        rw [hsec1, hsec2, hpr]
        rw [migrateLoop_scalar now h.primary (listKeysOp h.primary now "*")
          sec hexp hsc]
        rw [migrateLoop_scalar now h.primary (listKeysOp h.primary now "*")
          _ hexp hsc]
        constructor
        · rfl
        · intro f
          exact asetSeq_idem (scalarWrites h.primary now
            (listKeysOp h.primary now "*")) sec.files f

/-- Witness for C7 on a scalar-only primary: both one and two runs leave
the primary exactly as it was. -/
theorem c7_migrate_effects_witness :
    (migrateToSecondary hC7b 0).map (fun x => x.primary)
      = some hC7b.primary ∧
    ((migrateToSecondary hC7b 0).bind
        (fun h' => migrateToSecondary h' 0)).map (fun x => x.primary)
      = some hC7b.primary := by
  cases hmig : migrateToSecondary hC7b 0 with
  | none =>
    have hs : (migrateToSecondary hC7b 0).isSome = true := by decide
    rw [hmig] at hs
    simp at hs
  | some h' =>
    have hpr : h'.primary = hC7b.primary :=
      (c7_migrate_effects hC7b 0).1 h' hmig
    obtain ⟨h'', hm2, hpr2, _⟩ :=
      (c7_migrate_effects hC7b 0).2 h' hmig (by decide)
    constructor
    · show some h'.primary = some hC7b.primary
      rw [hpr]
    · show Option.map (fun x => x.primary) (migrateToSecondary h' 0)
        = some hC7b.primary
      rw [hm2]
      show some h''.primary = some hC7b.primary
      rw [hpr2, hpr]

/-! ### Router lemmas, claims C1 and C2 -/

theorem mem_insertDesc (r x : RoutingRule) :
    ∀ l, (x ∈ insertDesc r l ↔ x = r ∨ x ∈ l) := by
  intro l
  induction l with
  | nil => simp [insertDesc]
  | cons z zs ih =>
    rw [insertDesc]
    by_cases h : z.priority > r.priority
    · rw [if_pos h]
      simp only [List.mem_cons, ih]
      tauto
    · rw [if_neg h]
      simp only [List.mem_cons]

theorem mem_sortRules (x : RoutingRule) :
    ∀ l, (x ∈ sortRulesDesc l ↔ x ∈ l) := by
  intro l
  induction l with
  | nil => simp [sortRulesDesc]
  | cons z zs ih =>
    show x ∈ insertDesc z (sortRulesDesc zs) ↔ _
    rw [mem_insertDesc, ih]
    simp only [List.mem_cons]

theorem sortedDesc_insertDesc (r : RoutingRule) :
    ∀ l, sortedDescRules l → sortedDescRules (insertDesc r l) := by
  intro l
  induction l with
  | nil => intro _; exact List.chain'_singleton r
  | cons x xs ih =>
    intro hs
    rcases List.chain'_cons'.mp hs with ⟨hhead, htail⟩
    rw [insertDesc]
    by_cases h : x.priority > r.priority
    · rw [if_pos h]
      apply List.chain'_cons'.mpr
      refine ⟨?_, ih htail⟩
      intro y hy
      cases xs with
      | nil =>
        simp [insertDesc] at hy
        subst hy
        omega
      | cons z zs =>
        rw [insertDesc] at hy
        by_cases h2 : z.priority > r.priority
        · rw [if_pos h2] at hy
          simp at hy
          subst hy
          exact hhead z (by simp)
        · rw [if_neg h2] at hy
          simp at hy
          subst hy
          omega
    · rw [if_neg h]
      apply List.chain'_cons'.mpr
      refine ⟨?_, hs⟩
      intro y hy
      simp at hy
      subst hy
      omega

theorem sortedDesc_sortRules : ∀ l, sortedDescRules (sortRulesDesc l) := by
  intro l
  induction l with
  | nil => exact List.chain'_nil
  | cons x xs ih => exact sortedDesc_insertDesc x _ ih

theorem filter_insertDesc_ne (r : RoutingRule) (kp : Int)
    (hne : r.priority ≠ kp) :
    ∀ m, (insertDesc r m).filter (fun x => x.priority == kp)
      = m.filter (fun x => x.priority == kp) := by
  intro m
  induction m with
  | nil => simp [insertDesc, hne]
  | cons z zs ih =>
    rw [insertDesc]
    by_cases h : z.priority > r.priority
    · rw [if_pos h]
      rw [List.filter_cons, List.filter_cons, ih]
    · rw [if_neg h]
      rw [List.filter_cons_of_neg (by simp [hne])]

theorem filter_insertDesc_eq (r : RoutingRule) (kp : Int)
    (heq : r.priority = kp) :
    ∀ m, (insertDesc r m).filter (fun x => x.priority == kp)
      = r :: m.filter (fun x => x.priority == kp) := by
  intro m
  induction m with
  | nil => simp [insertDesc, heq]
  | cons z zs ih =>
    rw [insertDesc]
    by_cases h : z.priority > r.priority
    · rw [if_pos h]
      have hz : (z.priority == kp) = false := by
        simp only [beq_eq_false_iff_ne, ne_eq]
        omega
      rw [List.filter_cons_of_neg (by simp [hz]), ih,
        List.filter_cons_of_neg (by simp [hz])]
    · rw [if_neg h]
      rw [List.filter_cons_of_pos (by simp [heq])]

theorem filter_sortRules (kp : Int) :
    ∀ l, (sortRulesDesc l).filter (fun x => x.priority == kp)
      = l.filter (fun x => x.priority == kp) := by
  intro l
  induction l with
  | nil => rfl
  | cons a l ih =>
    show (insertDesc a (sortRulesDesc l)).filter _ = _
    by_cases ha : a.priority = kp
    · rw [filter_insertDesc_eq a kp ha, ih,
        List.filter_cons_of_pos (by simp [ha])]
    · rw [filter_insertDesc_ne a kp ha, ih,
        List.filter_cons_of_neg (by simp [ha])]

theorem sortRules_append_max (r : RoutingRule) :
    ∀ l, (∀ x ∈ l, x.priority < r.priority) →
      sortRulesDesc (l ++ [r]) = r :: sortRulesDesc l := by
  intro l
  induction l with
  | nil => intro _; rfl
  | cons a l ih =>
    intro hl
    show insertDesc a (sortRulesDesc (l ++ [r])) = r :: insertDesc a (sortRulesDesc l)
    rw [ih (fun x hx => hl x (List.mem_cons_of_mem _ hx))]
    rw [insertDesc, if_pos (hl a (List.mem_cons_self a l))]

theorem insertDesc_of_lt (r : RoutingRule) :
    ∀ l, (∀ x ∈ l, x.priority < r.priority) → insertDesc r l = r :: l := by
  intro l
  cases l with
  | nil => intro _; rfl
  | cons x xs =>
    intro h
    rw [insertDesc, if_neg]
    have := h x (List.mem_cons_self x xs)
    omega

theorem evalRules_first_match (m : Message) (d : RoutingDecision) :
    ∀ (pre : List RoutingRule) (r : RoutingRule) (post : List RoutingRule),
      (∀ r' ∈ pre, r'.condition m = false ∨ r'.action m = none) →
      r.condition m = true → r.action m = some d →
      evalRules (pre ++ r :: post) m = some d := by
  intro pre
  induction pre with
  | nil =>
    intro r post _ hc ha
    show evalRules (r :: post) m = some d
    rw [evalRules, if_pos hc, ha]
  | cons q pre ih =>
    intro r post hpre hc ha
    show evalRules (q :: (pre ++ r :: post)) m = some d
    rw [evalRules]
    rcases hpre q (List.mem_cons_self q _) with hq | hq
    · rw [if_neg (by rw [hq]; exact Bool.false_ne_true)]
      exact ih r post (fun r' h => hpre r' (List.mem_cons_of_mem _ h)) hc ha
    · by_cases hqc : q.condition m = true
      · rw [if_pos hqc, hq]
        exact ih r post (fun r' h => hpre r' (List.mem_cons_of_mem _ h)) hc ha
      · rw [if_neg hqc]
        exact ih r post (fun r' h => hpre r' (List.mem_cons_of_mem _ h)) hc ha

theorem routeOp_of_evalRules (rt : MessageRouter) (now : Nat) (m : Message)
    (d : RoutingDecision) (h : evalRules rt.rules m = some d) :
    routeOp rt now m = (d, rt.storage) := by
  simp only [routeOp, h]

theorem mkRouter_rules (st : FileStore String) :
    (mkRouter st).rules = defaultRulesList := rfl

theorem foldl_addRule_storage :
    ∀ (rs : List RoutingRule) (rt : MessageRouter),
      (List.foldl addRule rt rs).storage = rt.storage := by
  intro rs
  induction rs with
  | nil => intro rt; rfl
  | cons r rs ih => intro rt; exact ih (addRule rt r)

theorem foldl_addRule_filter (kp : Int) :
    ∀ (rs : List RoutingRule) (rt : MessageRouter),
      (List.foldl addRule rt rs).rules.filter (fun r => r.priority == kp)
        = (rt.rules ++ rs).filter (fun r => r.priority == kp) := by
  intro rs
  induction rs with
  | nil => intro rt; simp
  | cons r rs ih =>
    intro rt
    show (List.foldl addRule (addRule rt r) rs).rules.filter _ = _
    rw [ih (addRule rt r)]
    show (sortRulesDesc (rt.rules ++ [r]) ++ rs).filter _ = _
    rw [List.filter_append, filter_sortRules, ← List.filter_append,
      List.append_assoc, List.singleton_append]

theorem foldl_addRule_sorted :
    ∀ (rs : List RoutingRule) (rt : MessageRouter),
      sortedDescRules rt.rules →
      sortedDescRules ((List.foldl addRule rt rs).rules) := by
  intro rs
  induction rs with
  | nil => intro rt h; exact h
  | cons r rs ih =>
    intro rt _
    exact ih (addRule rt r) (sortedDesc_sortRules _)

theorem foldl_addRule_head (st : FileStore String) :
    ∀ (customs : List RoutingRule) (rt : MessageRouter),
      rt.storage = st →
      rt.rules = ignoreSystemRule :: (rt.rules.tail) →
      (∀ x ∈ rt.rules.tail, x.priority < 100) →
      (∀ r ∈ customs, r.priority < 100) →
      (List.foldl addRule rt customs).storage = st ∧
      (List.foldl addRule rt customs).rules
        = ignoreSystemRule :: (List.foldl addRule rt customs).rules.tail ∧
      (∀ x ∈ (List.foldl addRule rt customs).rules.tail, x.priority < 100) := by
  intro customs
  induction customs with
  | nil =>
    intro rt hst hr htail _
    exact ⟨hst, hr, htail⟩
  | cons r rs ih =>
    intro rt hst hr htail hpri
    have hr' : r.priority < 100 := hpri r (List.mem_cons_self r rs)
    have hpris : ∀ x ∈ rs, x.priority < 100 :=
      fun x hx => hpri x (List.mem_cons_of_mem _ hx)
    have hrules : (addRule rt r).rules
        = ignoreSystemRule :: sortRulesDesc (rt.rules.tail ++ [r]) := by
      show sortRulesDesc (rt.rules ++ [r]) = _
      rw [hr, List.cons_append]
      show insertDesc ignoreSystemRule (sortRulesDesc (rt.rules.tail ++ [r])) = _
      apply insertDesc_of_lt
      intro x hx
      rw [mem_sortRules] at hx
      rcases List.mem_append.mp hx with hx | hx
      · exact htail x hx
      · rw [List.mem_singleton.mp hx]
        exact hr'
    have htail' : ∀ x ∈ sortRulesDesc (rt.rules.tail ++ [r]),
        x.priority < 100 := by
      intro x hx
      rw [mem_sortRules] at hx
      rcases List.mem_append.mp hx with hx | hx
      · exact htail x hx
      · rw [List.mem_singleton.mp hx]
        exact hr'
    have h2 : (addRule rt r).rules.tail
        = sortRulesDesc (rt.rules.tail ++ [r]) := by
      rw [hrules]
      rfl
    exact ih (addRule rt r) hst (by rw [hrules]; rfl)
      (by rw [h2]; exact htail') hpris

/-- Claim C1: for every message whose metadata marks it as a system message,
route on a router extended (after construction) with any custom rules of
priority strictly below 100 returns should_process = false with reason
"System message ignored", and the storage backend — hence every
conversation record — is left untouched. -/
theorem c1_system_message_ignored (st : FileStore String)
    (customs : List RoutingRule) (now : Nat) (msg : Message)
    (hpri : ∀ r ∈ customs, r.priority < 100)
    (hsys : truthy (metaGetD msg.metadata "is_system" (PyValue.vBool false))
      = true) :
    routeOp (List.foldl addRule (mkRouter st) customs) now msg =
      ({ should_process := false, conversation_id := none,
         create_new_conversation := false,
         reason := "System message ignored", metadata := [] }, st) := by
  obtain ⟨hst, hr, _⟩ := foldl_addRule_head st customs (mkRouter st) rfl
    (by rw [mkRouter_rules]; rfl)
    (by
      rw [mkRouter_rules]
      intro x hx
      rw [List.mem_singleton.mp hx]
      decide)
    hpri
  have heval : evalRules ((List.foldl addRule (mkRouter st) customs).rules) msg
      = some { should_process := false, conversation_id := none,
               create_new_conversation := false,
               reason := "System message ignored", metadata := [] } := by
    rw [hr, evalRules]
    rw [if_pos (show ignoreSystemRule.condition msg = true from hsys)]
    rfl
  rw [routeOp_of_evalRules _ now msg _ heval, foldl_addRule_storage]
  rfl

/-- Witness for C1 with no custom rules and a concrete system message. -/
theorem c1_system_message_ignored_witness :
    (∀ r ∈ ([] : List RoutingRule), r.priority < 100) ∧
    truthy (metaGetD msgSysW.metadata "is_system" (PyValue.vBool false))
      = true ∧
    routeOp (List.foldl addRule (mkRouter (emptyStore : FileStore String)) [])
        0 msgSysW
      = ({ should_process := false, conversation_id := none,
           create_new_conversation := false,
           reason := "System message ignored", metadata := [] },
         emptyStore) := by
  refine ⟨by simp, by decide, ?_⟩
  exact c1_system_message_ignored emptyStore [] 0 msgSysW (by simp) (by decide)

/-- Claim C2: after any sequence of rule registrations the rule list is
sorted by non-increasing priority with equal-priority rules in insertion
order (built-ins first, then customs, per registration order); route
returns the decision of the first listed rule whose condition holds and
whose action yields a decision; and a rule whose priority strictly exceeds
every existing rule's becomes the head of the list, so it fires first on
the next route call when it matches. -/
theorem c2_rule_ordering :
    (∀ (st : FileStore String) (rs : List RoutingRule) (kp : Int),
       sortedDescRules ((List.foldl addRule (mkRouter st) rs).rules) ∧
       (List.foldl addRule (mkRouter st) rs).rules.filter
           (fun r => r.priority == kp)
         = (defaultRulesList ++ rs).filter (fun r => r.priority == kp)) ∧
    (∀ (rt : MessageRouter) (now : Nat) (m : Message)
       (pre : List RoutingRule) (r : RoutingRule) (post : List RoutingRule)
       (d : RoutingDecision),
       rt.rules = pre ++ r :: post →
       (∀ r' ∈ pre, r'.condition m = false ∨ r'.action m = none) →
       r.condition m = true → r.action m = some d →
       routeOp rt now m = (d, rt.storage)) ∧
    (∀ (rt : MessageRouter) (r : RoutingRule),
       (∀ r' ∈ rt.rules, r'.priority < r.priority) →
       (addRule rt r).rules = r :: sortRulesDesc rt.rules) ∧
    (∀ (rt : MessageRouter) (r : RoutingRule) (now : Nat) (m : Message)
       (d : RoutingDecision),
       (∀ r' ∈ rt.rules, r'.priority < r.priority) →
       r.condition m = true → r.action m = some d →
       routeOp (addRule rt r) now m = (d, rt.storage)) := by
  refine ⟨?_, ?_, ?_, ?_⟩
  · intro st rs kp
    constructor
    · apply foldl_addRule_sorted
      exact sortedDesc_sortRules _
    · rw [foldl_addRule_filter, mkRouter_rules]
  · intro rt now m pre r post d hrules hpre hc ha
    apply routeOp_of_evalRules
    rw [hrules]
    exact evalRules_first_match m d pre r post hpre hc ha
  · intro rt r hmax
    show sortRulesDesc (rt.rules ++ [r]) = _
    exact sortRules_append_max r rt.rules hmax
  · intro rt r now m d hmax hc ha
    have hrules : (addRule rt r).rules = r :: sortRulesDesc rt.rules :=
      sortRules_append_max r rt.rules hmax
    have heval : evalRules ((addRule rt r).rules) m = some d := by
      rw [hrules, evalRules, if_pos hc, ha]
    exact routeOp_of_evalRules _ now m d heval

/-- Witness for C2: a concrete rule of priority 200 added to a fresh router
fires first and its decision is returned. -/
theorem c2_rule_ordering_witness :
    (∀ r' ∈ (mkRouter (emptyStore : FileStore String)).rules,
       r'.priority < hiRule.priority) ∧
    hiRule.condition msgW = true ∧
    routeOp (addRule (mkRouter (emptyStore : FileStore String)) hiRule) 0 msgW
      = (hiDecision, emptyStore) := by
  have hall : ∀ r' ∈ (mkRouter (emptyStore : FileStore String)).rules,
      r'.priority < hiRule.priority := by
    intro r' hr'
    rw [mkRouter_rules] at hr'
    rcases List.mem_cons.mp hr' with h | h
    · rw [h]; decide
    · rw [List.mem_singleton.mp h]; decide
  exact ⟨hall, rfl, c2_rule_ordering.2.2.2 (mkRouter emptyStore) hiRule 0
    msgW hiDecision hall rfl rfl⟩

/-! ### String round-trip lemmas and claim C5 -/

theorem stemL_json (x : List Char) (hx : x ≠ []) :
    stemL (x ++ ".json".data) = x := by
  have h1 : (x ++ ".json".data).reverse
      = 'n' :: 'o' :: 's' :: 'j' :: '.' :: x.reverse := by
    rw [show ".json".data = ['.', 'j', 's', 'o', 'n'] from rfl,
      List.reverse_append]
    rfl
  have h2 : List.dropWhile (fun c => c != '.')
      ('n' :: 'o' :: 's' :: 'j' :: '.' :: x.reverse) = '.' :: x.reverse := rfl
  have hcond : 0 < x.reverse.length ∧
      x.reverse.length < (x ++ ".json".data).length - 1 := by
    constructor
    · rw [List.length_reverse]
      exact List.length_pos.mpr hx
    · rw [List.length_reverse, List.length_append,
        show ".json".data.length = 5 from rfl]
      omega
  rw [stemL, h1, h2]
  show (if 0 < x.reverse.length ∧
      x.reverse.length < (x ++ ".json".data).length - 1
    then x.reverse.reverse else x ++ ".json".data) = x
  rw [if_pos hcond, List.reverse_reverse]

theorem stemL_listjson (x : List Char) :
    stemL (x ++ "_list.json".data) = x ++ "_list".data := by
  have h : x ++ "_list.json".data = (x ++ "_list".data) ++ ".json".data := by
    rw [List.append_assoc]
    rfl
  rw [h, stemL_json _ (by simp)]

theorem startsWithL_iff : ∀ (p s : List Char),
    (startsWithL p s = true ↔ p <+: s) := by
  intro p
  induction p with
  | nil => intro s; simp [startsWithL]
  | cons c cs ih =>
    intro s
    cases s with
    | nil =>
      simp [startsWithL]
    | cons d ds =>
      rw [startsWithL, Bool.and_eq_true, beq_iff_eq, ih ds,
        List.cons_prefix_cons]

theorem containsSubL_iff (p : List Char) : ∀ (s : List Char),
    (containsSubL p s = true ↔ p <:+: s) := by
  intro s
  induction s with
  | nil =>
    rw [containsSubL, startsWithL_iff]
    simp [List.prefix_nil, List.infix_nil]
  | cons c cs ih =>
    rw [containsSubL, Bool.or_eq_true, startsWithL_iff, ih]
    exact (List.infix_cons_iff).symm

theorem replaceFuel_no_occurrence (pat rep : List Char) :
    ∀ (fuel : Nat) (s : List Char), s.length ≤ fuel →
      containsSubL pat s = false → replaceFuel pat rep fuel s = s := by
  intro fuel
  induction fuel with
  | zero =>
    intro s hs _
    cases s with
    | nil => rfl
    | cons c cs => simp at hs
  | succ fuel ih =>
    intro s hs hc
    cases s with
    | nil => rfl
    | cons c cs =>
      rw [containsSubL, Bool.or_eq_false_iff] at hc
      rw [replaceFuel, if_neg (by simp [hc.1])]
      have : cs.length ≤ fuel := by
        simp only [List.length_cons] at hs
        omega
      rw [ih cs this hc.2]

theorem noBorder_ulist : noBorder "_list".data := by
  intro b hb1 hb2
  rw [show "_list".data = ['_', 'l', 'i', 's', 't'] from rfl] at hb2 ⊢
  simp only [List.length_cons, List.length_nil] at hb2
  interval_cases b <;> decide

theorem replaceFuel_boundary (pat rep : List Char) (hnb : noBorder pat)
    (hne : pat ≠ []) :
    ∀ (fuel : Nat) (x : List Char), (x ++ pat).length ≤ fuel →
      containsSubL pat x = false →
      replaceFuel pat rep fuel (x ++ pat) = x ++ rep := by
  intro fuel
  induction fuel with
  | zero =>
    intro x hlen _
    exfalso
    cases pat with
    | nil => exact hne rfl
    | cons p ps => simp [List.length_append] at hlen
  | succ fuel ih =>
    intro x hlen hc
    cases x with
    | nil =>
      cases hp : pat with
      | nil => exact absurd hp hne
      | cons p ps =>
        subst hp
        rw [List.nil_append, replaceFuel, if_pos (by
          simp [Bool.and_eq_true, startsWithL_iff])]
        have hdrop : List.drop ((p :: ps).length - 1) ps = [] := by
          simp only [List.length_cons, Nat.add_sub_cancel]
          exact List.drop_length ps
        rw [hdrop]
        have hnil : replaceFuel (p :: ps) rep fuel [] = [] := by
          cases fuel <;> rfl
        rw [hnil, List.append_nil, List.nil_append]
    | cons c cx =>
      have hsw : startsWithL pat (c :: (cx ++ pat)) = false := by
        rw [← List.cons_append]
        by_contra hcon
        rw [Bool.not_eq_false, startsWithL_iff] at hcon
        by_cases hll : pat.length ≤ (c :: cx).length
        · have htake : pat = ((c :: cx) ++ pat).take pat.length :=
            List.prefix_iff_eq_take.mp hcon
          rw [List.take_append_eq_append_take,
            Nat.sub_eq_zero_of_le hll, List.take_zero, List.append_nil]
            at htake
          have hpre : pat <+: (c :: cx) := htake ▸ List.take_prefix _ _
          have : containsSubL pat (c :: cx) = true :=
            (containsSubL_iff pat (c :: cx)).mpr hpre.isInfix
          rw [this] at hc
          simp at hc
        · push_neg at hll
          have htake : pat = ((c :: cx) ++ pat).take pat.length :=
            List.prefix_iff_eq_take.mp hcon
          rw [List.take_append_eq_append_take,
            List.take_of_length_le (by omega)] at htake
          -- htake : pat = (c :: cx) ++ pat.take (pat.length - (c :: cx).length)
          have hdropn : pat.drop (c :: cx).length
              = pat.take (pat.length - (c :: cx).length) := by
            conv_lhs => rw [htake]
            exact List.drop_left _ _
          have hb1 : 0 < pat.length - (c :: cx).length := by
            simp only [List.length_cons] at hll ⊢
            omega
          have hb2 : pat.length - (c :: cx).length < pat.length := by
            have : 0 < (c :: cx).length := by simp
            omega
          have := hnb (pat.length - (c :: cx).length) hb1 hb2
          apply this
          rw [hdropn.symm]
          congr 1
          have : 0 < (c :: cx).length := by simp
          omega
      rw [List.cons_append, replaceFuel, if_neg (by simp [hsw])]
      have hc' : containsSubL pat cx = false := by
        rw [containsSubL, Bool.or_eq_false_iff] at hc
        exact hc.2
      have hlen' : (cx ++ pat).length ≤ fuel := by
        simp only [List.cons_append, List.length_cons] at hlen
        simp only [List.length_append] at hlen ⊢
        omega
      rw [ih cx hlen' hc', List.cons_append]

theorem cleanKey_parts (k : String) (hck : cleanKey k = true) :
    ('_' ∉ k.data) ∧ containsSubL "_list".data (safeKeyL k) = false := by
  rw [cleanKey, Bool.and_eq_true, Bool.not_eq_true', Bool.not_eq_true']
    at hck
  refine ⟨?_, hck.2⟩
  intro hmem
  rw [decide_eq_false_iff_not] at hck
  exact hck.1 hmem

theorem mapRoundTrip (k : String) (hund : '_' ∉ k.data) :
    (safeKeyL k).map underToColon = k.data := by
  rw [safeKeyL, List.map_map]
  rw [List.map_congr_left (g := id) ?_]
  · exact List.map_id k.data
  · intro c hc
    simp only [Function.comp_apply, id_eq, colonToUnder, underToColon]
    by_cases h1 : c = ':'
    · simp [h1]
    · rw [if_neg h1]
      have h2 : ¬ c = '_' := fun he => hund (he ▸ hc)
      rw [if_neg h2]

theorem keyOfFile_scalar (k : String) (hck : cleanKey k = true)
    (hne : k ≠ "") : keyOfFile (filePathL k) = k := by
  obtain ⟨hund, hsub⟩ := cleanKey_parts k hck
  have hdata : k.data ≠ [] := fun hd => hne (by
    have hk : k = String.mk k.data := rfl
    rw [hk, hd])
  have hx : safeKeyL k ≠ [] := by
    rw [safeKeyL]
    intro h
    exact hdata (List.map_eq_nil_iff.mp h)
  rw [keyOfFile, filePathL, stemL_json _ hx, replaceAllL,
    replaceFuel_no_occurrence "_list".data [] (safeKeyL k).length
      (safeKeyL k) le_rfl hsub, mapRoundTrip k hund]

theorem keyOfFile_list (k : String) (hck : cleanKey k = true) :
    keyOfFile (listFilePathL k) = k := by
  obtain ⟨hund, hsub⟩ := cleanKey_parts k hck
  rw [keyOfFile, listFilePathL, stemL_listjson, replaceAllL,
    replaceFuel_boundary "_list".data [] noBorder_ulist (by decide)
      (safeKeyL k ++ "_list".data).length (safeKeyL k) le_rfl hsub,
    List.append_nil, mapRoundTrip k hund]

/-- Claim C5 counterexample: the key "a_b" is stored (scalar, no ttl, not
expired) and matches the pattern "*", yet list_keys does not include it —
the file-name round-trip returns the mangled key "a:b" instead. -/
theorem c5_counterexample_underscore_key :
    ¬ ("a_b" ∈ listKeysOp
      (setCore (emptyStore : FileStore String) 0 "a_b" "v" none) 0 "*") := by
  decide

/-- Claim C5 (amended): no key whose reconstructed name is expired appears
in a list_keys result; and every stored key k that survives the file-name
round-trip — k contains no underscore, its colon-translated stem contains
no "_list" substring, and (for a scalar record, whose file name would
otherwise be the dot-file ".json" that Path.stem leaves whole) k is
non-empty — and is not expired is included verbatim whenever its file name
matches the translated glob pattern (for such keys this is the code's
matching of k against p). -/
theorem c5_list_keys_roundtrip {V : Type} :
    (∀ (s : FileStore V) (now : Nat) (p : String) (key : String),
       key ∈ listKeysOp s now p → isExpired s now key = false) ∧
    (∀ (s : FileStore V) (now : Nat) (p : String) (k : String),
       cleanKey k = true →
       isExpired s now k = false →
       ((k ≠ "" ∧ (alookup s.files (filePathL k)).isSome = true ∧
          globMatchL (p.data.map colonToUnder ++ ".json".data)
            (filePathL k) = true) ∨
        ((alookup s.files (listFilePathL k)).isSome = true ∧
          globMatchL (p.data.map colonToUnder ++ "_list.json".data)
            (listFilePathL k) = true)) →
       k ∈ listKeysOp s now p) := by
  constructor
  · exact fun s now p key h => listKeys_not_expired s now p key h
  · intro s now p k hck hexp hcase
    simp only [listKeysOp]
    rw [List.mem_filter]
    refine ⟨?_, by simp [hexp]⟩
    rw [List.mem_map]
    rcases hcase with ⟨hne, hsome, hglob⟩ | ⟨hsome, hglob⟩
    · rcases Option.isSome_iff_exists.mp hsome with ⟨c, hc⟩
      refine ⟨(filePathL k, c), ?_, keyOfFile_scalar k hck hne⟩
      rw [List.mem_append]
      left
      rw [List.mem_filter]
      exact ⟨alookup_mem hc, hglob⟩
    · rcases Option.isSome_iff_exists.mp hsome with ⟨c, hc⟩
      refine ⟨(listFilePathL k, c), ?_, keyOfFile_list k hck⟩
      rw [List.mem_append]
      right
      rw [List.mem_filter]
      exact ⟨alookup_mem hc, hglob⟩

/-- Witness for C5 on a colon-namespaced key and pattern. -/
theorem c5_list_keys_roundtrip_witness :
    cleanKey "conversation:abc:context" = true ∧
    "conversation:abc:context" ∈ listKeysOp
      (setCore (emptyStore : FileStore String) 0 "conversation:abc:context"
        "v" none) 0 "conversation:*:context" := by
  refine ⟨by decide, ?_⟩
  exact (c5_list_keys_roundtrip (V := String)).2 _ 0 "conversation:*:context"
    "conversation:abc:context" (by decide) (by decide)
    (Or.inl ⟨by decide, by decide, by decide⟩)

/-! ### Claim C10 -/

theorem foldl_delete_preserve {V : Type} :
    ∀ (ps : List String) (st : FileStore V) (f : List Char),
      (∀ p ∈ ps, f ≠ filePathL (activeKey p)
        ∧ f ≠ listFilePathL (activeKey p)) →
      alookup ((ps.foldl (fun acc q => deleteOp acc (activeKey q)) st)).files f
        = alookup st.files f := by
  intro ps
  induction ps with
  | nil => intro st f _; rfl
  | cons q ps ih =>
    intro st f hps
    show alookup ((ps.foldl _ (deleteOp st (activeKey q))).files) f = _
    rw [ih (deleteOp st (activeKey q)) f
      (fun p hp => hps p (List.mem_cons_of_mem _ hp))]
    exact deleteOp_files_ne st (activeKey q) f
      (hps q (List.mem_cons_self q ps)).1 (hps q (List.mem_cons_self q ps)).2

theorem foldl_delete_none_preserve {V : Type} :
    ∀ (ps : List String) (st : FileStore V) (f : List Char),
      alookup st.files f = none →
      alookup ((ps.foldl (fun acc q => deleteOp acc (activeKey q)) st)).files f
        = none := by
  intro ps
  induction ps with
  | nil => intro st f h; exact h
  | cons q ps ih =>
    intro st f h
    exact ih (deleteOp st (activeKey q)) f (deleteOp_files_none st _ f h)

theorem foldl_delete_none {V : Type} :
    ∀ (ps : List String) (st : FileStore V) (p : String), p ∈ ps →
      alookup ((ps.foldl (fun acc q => deleteOp acc (activeKey q)) st)).files
          (filePathL (activeKey p)) = none ∧
      alookup ((ps.foldl (fun acc q => deleteOp acc (activeKey q)) st)).files
          (listFilePathL (activeKey p)) = none := by
  intro ps
  induction ps with
  | nil => intro st p hp; exact absurd hp (List.not_mem_nil p)
  | cons q ps ih =>
    intro st p hp
    rcases List.mem_cons.mp hp with hp | hp
    · subst hp
      constructor
      · exact foldl_delete_none_preserve ps _ _ (deleteOp_file_self st _)
      · exact foldl_delete_none_preserve ps _ _ (deleteOp_listfile_self st _)
    · exact ih (deleteOp st (activeKey q)) p hp

theorem ctx_file_ne_active_file (x p : String) :
    filePathL (ctxKey x) ≠ filePathL (activeKey p)
    ∧ filePathL (ctxKey x) ≠ listFilePathL (activeKey p) := by
  constructor
  · intro h
    have h1 : (filePathL (ctxKey x)).head? = some 'c' := rfl
    have h2 : (filePathL (activeKey p)).head? = some 'a' := rfl
    rw [h, h2] at h1
    exact absurd (Option.some.inj h1) (by decide)
  · intro h
    have h1 : (filePathL (ctxKey x)).head? = some 'c' := rfl
    have h2 : (listFilePathL (activeKey p)).head? = some 'a' := rfl
    rw [h, h2] at h1
    exact absurd (Option.some.inj h1) (by decide)

/-- Claim C10: close_conversation on a stored conversation persists its
context with is_active = false (and updated_at bumped), and for every
participant deletes the entire active_conversations record — both its
scalar and its list file — not only the closed conversation's entry. -/
theorem c10_close_conversation (s : FileStore StoredVal) (now : Nat)
    (cid : String) (c : ConversationContext) (s1 : FileStore StoredVal)
    (hget : getConversationM s now cid = (Except.ok (some c), s1)) :
    ∃ s', closeConversation s now cid = Except.ok s' ∧
      alookup s'.files (filePathL (ctxKey c.conversation_id))
        = some (FileContent.scalar
            (StoredVal.ctxJson
              { c with is_active := false, updated_at := now }) now none) ∧
      (∀ p ∈ c.participant_ids,
        alookup s'.files (filePathL (activeKey p)) = none ∧
        alookup s'.files (listFilePathL (activeKey p)) = none) := by
  have hclose : closeConversation s now cid = Except.ok
      (({ c with is_active := false, updated_at := now }).participant_ids.foldl
        (fun st p => deleteOp st (activeKey p))
        (saveContext s1 now { c with is_active := false, updated_at := now })) := by
    rw [closeConversation, hget]
  refine ⟨_, hclose, ?_, ?_⟩
  · rw [foldl_delete_preserve _ _ _ (fun p _ => ctx_file_ne_active_file _ p)]
    rw [saveContext]
    show alookup (aset s1.files
      (filePathL (ctxKey c.conversation_id)) _) _ = _
    exact alookup_aset_self _ _ _
  · intro p hp
    exact foldl_delete_none _ _ p hp

/-- Witness for C10 on a concrete stored conversation with two
participants. -/
theorem c10_close_conversation_witness :
    ∃ s', closeConversation storeW 5 "c1" = Except.ok s' ∧
      alookup s'.files (filePathL (activeKey "p1")) = none ∧
      alookup s'.files (filePathL (activeKey "p2")) = none := by
  obtain ⟨s', h1, _, h3⟩ :=
    c10_close_conversation storeW 5 "c1" ctxW storeW rfl
  exact ⟨s', h1, (h3 "p1" (by decide)).1, (h3 "p2" (by decide)).1⟩

/-! ### Claim C9 -/

/-- Claim C9: intercept signals every normal negative outcome by returning
absent without raising — a declined routing decision sets IGNORED; a
decision that neither names nor requests a conversation (including a falsy
empty-string target id), a named target conversation that does not exist,
and an unresolvable agent (on the named-target path as well as the
create path) each set FAILED — while an exception from a collaborator
(fetching or creating the conversation, the agent call, or the
update_conversation storage write) sets FAILED on the message and is
re-raised to the caller. -/
theorem c9_intercept_outcomes {σ : Type} (ic : Interceptor σ) (msg : Message)
    (s : σ) (m1 : Message) (dec : RoutingDecision) (s1 : σ)
    (hpre : runProcs ic.preProcessors msg = (m1, true))
    (hrd : ic.route { m1 with status := MessageStatus.queued } s = (dec, s1)) :
    (dec.should_process = false →
      interceptOp ic msg s = (Except.ok none,
        { m1 with status := MessageStatus.ignored }, s1)) ∧
    (dec.should_process = true → dec.create_new_conversation = false →
      dec.conversation_id = none →
      interceptOp ic msg s = (Except.ok none,
        { m1 with status := MessageStatus.failed }, s1)) ∧
    (dec.should_process = true → dec.create_new_conversation = false →
      dec.conversation_id = some "" →
      interceptOp ic msg s = (Except.ok none,
        { m1 with status := MessageStatus.failed }, s1)) ∧
    (∀ cid s2, dec.should_process = true →
      dec.create_new_conversation = false →
      dec.conversation_id = some cid → cid ≠ "" →
      ic.getConversation cid s1 = (Except.ok none, s2) →
      interceptOp ic msg s = (Except.ok none,
        { m1 with status := MessageStatus.failed }, s2)) ∧
    (∀ cid s2, dec.should_process = true →
      dec.create_new_conversation = false →
      dec.conversation_id = some cid → cid ≠ "" →
      ic.getConversation cid s1 = (Except.error (), s2) →
      interceptOp ic msg s = (Except.error (),
        { m1 with status := MessageStatus.failed }, s2)) ∧
    (∀ cid conv s2, dec.should_process = true →
      dec.create_new_conversation = false →
      dec.conversation_id = some cid → cid ≠ "" →
      ic.getConversation cid s1 = (Except.ok (some conv), s2) →
      selectAgent ic conv = none →
      interceptOp ic msg s = (Except.ok none,
        { m1 with conversation_id := some conv.conversation_id,
                  status := MessageStatus.failed }, s2)) ∧
    (∀ cid conv s2 ag s3, dec.should_process = true →
      dec.create_new_conversation = false →
      dec.conversation_id = some cid → cid ≠ "" →
      ic.getConversation cid s1 = (Except.ok (some conv), s2) →
      selectAgent ic conv = some ag →
      ag { m1 with conversation_id := some conv.conversation_id,
                   status := MessageStatus.processing } conv s2
        = (Except.error (), s3) →
      interceptOp ic msg s = (Except.error (),
        { m1 with conversation_id := some conv.conversation_id,
                  status := MessageStatus.failed }, s3)) ∧
    (∀ cid conv s2 ag resp s3 s4, dec.should_process = true →
      dec.create_new_conversation = false →
      dec.conversation_id = some cid → cid ≠ "" →
      ic.getConversation cid s1 = (Except.ok (some conv), s2) →
      selectAgent ic conv = some ag →
      ag { m1 with conversation_id := some conv.conversation_id,
                   status := MessageStatus.processing } conv s2
        = (Except.ok resp, s3) →
      ic.updateConversation
          { m1 with conversation_id := some conv.conversation_id,
                    status := MessageStatus.processing }
          conv.conversation_id s3 = (Except.error (), s4) →
      interceptOp ic msg s = (Except.error (),
        { m1 with conversation_id := some conv.conversation_id,
                  status := MessageStatus.failed }, s4)) ∧
    (∀ conv s2, dec.should_process = true →
      dec.create_new_conversation = true →
      ic.createConversation { m1 with status := MessageStatus.queued }
        dec.metadata s1 = (Except.ok conv, s2) →
      selectAgent ic conv = none →
      interceptOp ic msg s = (Except.ok none,
        { m1 with conversation_id := some conv.conversation_id,
                  status := MessageStatus.failed }, s2)) ∧
    (∀ conv s2 ag s3, dec.should_process = true →
      dec.create_new_conversation = true →
      ic.createConversation { m1 with status := MessageStatus.queued }
        dec.metadata s1 = (Except.ok conv, s2) →
      selectAgent ic conv = some ag →
      ag { m1 with conversation_id := some conv.conversation_id,
                   status := MessageStatus.processing } conv s2
        = (Except.error (), s3) →
      interceptOp ic msg s = (Except.error (),
        { m1 with conversation_id := some conv.conversation_id,
                  status := MessageStatus.failed }, s3)) ∧
    (∀ s2, dec.should_process = true →
      dec.create_new_conversation = true →
      ic.createConversation { m1 with status := MessageStatus.queued }
        dec.metadata s1 = (Except.error (), s2) →
      interceptOp ic msg s = (Except.error (),
        { m1 with status := MessageStatus.failed }, s2)) := by
  refine ⟨?_, ?_, ?_, ?_, ?_, ?_, ?_, ?_, ?_, ?_, ?_⟩
  · intro h1
    simp [interceptOp, hpre, hrd, h1]
  · intro h1 h2 h3
    simp [interceptOp, hpre, hrd, h1, h2, h3]
  · intro h1 h2 h3
    simp [interceptOp, hpre, hrd, h1, h2, h3]
  · intro cid s2 h1 h2 h3 h4 h5
    simp [interceptOp, hpre, hrd, h1, h2, h3, h4, h5]
  · intro cid s2 h1 h2 h3 h4 h5
    simp [interceptOp, hpre, hrd, h1, h2, h3, h4, h5]
  · intro cid conv s2 h1 h2 h3 h4 h5 h6
    simp [interceptOp, hpre, hrd, h1, h2, h3, h4, h5, interceptAfterConv, h6]
  · intro cid conv s2 ag s3 h1 h2 h3 h4 h5 h6 h7
    simp [interceptOp, hpre, hrd, h1, h2, h3, h4, h5, interceptAfterConv,
      h6, h7]
  · intro cid conv s2 ag resp s3 s4 h1 h2 h3 h4 h5 h6 h7 h8
    simp [interceptOp, hpre, hrd, h1, h2, h3, h4, h5, interceptAfterConv,
      h6, h7, h8]
  · intro conv s2 h1 h2 h3 h4
    simp [interceptOp, hpre, hrd, h1, h2, h3, interceptAfterConv, h4]
  · intro conv s2 ag s3 h1 h2 h3 h4 h5
    simp [interceptOp, hpre, hrd, h1, h2, h3, interceptAfterConv, h4, h5]
  · intro s2 h1 h2 h3
    simp [interceptOp, hpre, hrd, h1, h2, h3]

/-- Witness for C9: a declining router makes intercept return absent with
the message marked IGNORED, without raising. -/
theorem c9_intercept_outcomes_witness :
    runProcs icW.preProcessors msgW = (msgW, true) ∧
    (icW.route { msgW with status := MessageStatus.queued } ()).1.should_process
      = false ∧
    interceptOp icW msgW () = (Except.ok none,
      { msgW with status := MessageStatus.ignored }, ()) := by
  refine ⟨rfl, rfl, ?_⟩
  exact (c9_intercept_outcomes icW msgW () msgW
    { should_process := false, conversation_id := none,
      create_new_conversation := false, reason := "declined",
      metadata := [] } () rfl rfl).1 rfl
